import Mathlib

/-!
Verification development for the esnode-core telemetry agent and the
ESNODE orchestrator.  Rust sources are shallowly embedded: `f64` values
whose exact bit-level rounding is irrelevant to the claims are modelled
as rationals (`ℚ`), `u64` as `ℕ` (with casts noted where saturation or
wrap could matter), `i64` as `ℤ` with Rust's truncating division
written `Int.tdiv`, and `HashMap` as an association list whose order
stands for the map's (unspecified) iteration order.  Fallible reads are
`Option`s.  Each section names the Rust source file and function it
embeds.
-/

/-! ## Character-list helpers

Rust `&str` operations (`starts_with`, `ends_with`, `trim_end_matches`,
`split`, lexicographic `Ord`) are modelled on `String.data` character
lists so that every definition evaluates inside the kernel.  UTF-8 byte
order agrees with code-point order, so lexicographic comparison by
`Char.toNat` coincides with Rust's `Ord` on `String`. -/

/-- Does the character list `s` start with the character list `p`?
Models Rust `str::starts_with`. -/
def startsWithChars : List Char → List Char → Bool
  | _, [] => true
  | [], _ :: _ => false
  | c :: s, p :: ps => c = p && startsWithChars s ps

/-- Lexicographic order on character lists by code point; models the
`Ord` instance on Rust `String` (UTF-8 byte order equals code-point
order). -/
def charListLe : List Char → List Char → Bool
  | [], _ => true
  | _ :: _, [] => false
  | a :: as, b :: bs => if a = b then charListLe as bs else decide (a.toNat < b.toNat)

namespace Orch

/-! ## ESNODE-Orchestrator/src/lib.rs -/

/-- DeviceKind from `ESNODE-Orchestrator/src/lib.rs`. -/
inductive DeviceKind where
  | cpu
  | gpu
  | npu
  | memoryAccel
deriving DecidableEq, Repr

/-- LatencyClass from `ESNODE-Orchestrator/src/lib.rs`. -/
inductive LatencyClass where
  | low
  | medium
  | high
deriving DecidableEq, Repr

/-- Device from `ESNODE-Orchestrator/src/lib.rs` (`last_seen` omitted:
no claim mentions it). `f64` fields are modelled as `ℚ`. -/
structure Device where
  id : String
  kind : DeviceKind
  peak_flops_tflops : ℚ
  mem_gb : ℚ
  power_watts_idle : ℚ
  power_watts_max : ℚ
  current_load : ℚ
deriving DecidableEq

/-- Task from `ESNODE-Orchestrator/src/lib.rs`. -/
structure Task where
  id : String
  est_flops : ℚ
  est_bytes : ℚ
  latency_class : LatencyClass
  preferred_kinds : Option (List DeviceKind)
deriving DecidableEq

/-- Orchestrator state from `ESNODE-Orchestrator/src/lib.rs`.  The
`HashMap<String, Device>` is modelled as an association list whose
order stands for the map's unspecified iteration order (a `HashMap`'s
iteration order need not match insertion order). -/
structure Orchestrator where
  devices : List (String × Device)
  pending_tasks : List Task
  alpha_perf : ℚ
  beta_energy : ℚ
  gamma_congestion : ℚ
  delta_data : ℚ

/-- Orchestrator::new — the default scoring weights. -/
def Orchestrator.new (initial_devices : List (String × Device)) : Orchestrator :=
  { devices := initial_devices
    pending_tasks := []
    alpha_perf := 1
    beta_energy := 7/10
    gamma_congestion := 1/2
    delta_data := 3/10 }

/-- The latency weight table inside Orchestrator::perf_score. -/
def latency_weight : LatencyClass → ℚ
  | .high => 1
  | .medium => 7/10
  | .low => 2/5

/-- Orchestrator::perf_score.  `1e12` and `1e-6` are exact in the model;
`(1.0 - load).max(0.1)` and `eff_flops.max(1e-6)` are `max` on ℚ. -/
def perf_score (task : Task) (dev : Device) : ℚ :=
  let peak_flops := dev.peak_flops_tflops * 10^12
  let eff_flops := peak_flops * (max (1 - dev.current_load) (1/10))
  let time_seconds := task.est_flops / (max eff_flops (1/1000000))
  let negated_weighted_time := -time_seconds * latency_weight task.latency_class
  negated_weighted_time

/-- Orchestrator::energy_score. -/
def energy_score (task : Task) (dev : Device) : ℚ :=
  let peak_flops := dev.peak_flops_tflops * 10^12
  let eff_flops := peak_flops * (max (1 - dev.current_load) (1/10))
  let time_seconds := task.est_flops / (max eff_flops (1/1000000))
  let effective_load := min (dev.current_load + 1/5) 1
  let power_watts := (dev.power_watts_max - dev.power_watts_idle) * effective_load
      + dev.power_watts_idle
  power_watts * time_seconds

/-- Orchestrator::congestion_penalty. -/
def congestion_penalty (dev : Device) : ℚ :=
  dev.current_load ^ 2

/-- Orchestrator::data_movement_cost. -/
def data_movement_cost (task : Task) : ℚ :=
  task.est_bytes / 10^9

/-- Orchestrator::device_allowed. -/
def device_allowed (task : Task) (dev : Device) : Bool :=
  match task.preferred_kinds with
  | none => true
  | some kinds => kinds.contains dev.kind

/-- The score computed inside `pick_device_for_task` (the nested
`mul_add` calls are exact over ℚ: α·perf − β·energy − γ·congestion −
δ·data_cost). -/
def score (o : Orchestrator) (task : Task) (dev : Device) : ℚ :=
  o.delta_data * (-(data_movement_cost task)) +
    (o.gamma_congestion * (-(congestion_penalty dev)) +
      (o.alpha_perf * perf_score task dev + -(o.beta_energy * energy_score task dev)))

/-- Candidate filter inside the `pick_device_for_task` loop: the kind
filter plus the `current_load >= 0.95` skip. -/
def qualifies (task : Task) (dev : Device) : Bool :=
  device_allowed task dev && decide (dev.current_load < 95/100)

/-- Does a score beat the running best?  `none` stands for the initial
`f64::NEG_INFINITY`, which every ℚ score beats. -/
def beatsBest (s : ℚ) : Option (String × ℚ) → Bool
  | none => true
  | some (_, best_score) => decide (best_score < s)

/-- The loop body of Orchestrator::pick_device_for_task, folded over the
devices in iteration order, carrying `(best_id, best_score)`. -/
def pickAux (o : Orchestrator) (task : Task) :
    List (String × Device) → Option (String × ℚ) → Option String
  | [], best => best.map Prod.fst
  | p :: rest, best =>
    if qualifies task p.2 then
      let s := score o task p.2
      if beatsBest s best then pickAux o task rest (some (p.1, s))
      else pickAux o task rest best
    else pickAux o task rest best

/-- Orchestrator::pick_device_for_task. -/
def pick_device_for_task (o : Orchestrator) (task : Task) : Option String :=
  pickAux o task o.devices none

/-- The load update applied to the chosen device inside
Orchestrator::register_assignment.  Note ℚ division by zero yields 0
where Rust would produce `inf`/`NaN`; all claims are stated away from
that case. -/
def applyAssignment (dev : Device) (task : Task) : Device :=
  let peak_flops := dev.peak_flops_tflops * 10^12
  let load_increase := min (task.est_flops / peak_flops) (1/2)
  { dev with current_load := min (dev.current_load + load_increase) 1 }

/-- Orchestrator::register_assignment (`devices.get_mut(device_id)`:
only the entry keyed `device_id` is updated). -/
def register_assignment (o : Orchestrator) (device_id : String) (task : Task) :
    Orchestrator :=
  { o with
    devices := o.devices.map fun p =>
      if p.1 = device_id then (p.1, applyAssignment p.2 task) else p }

/-- Orchestrator::update_device — upsert by id (replace in place, else
append; stands for `HashMap::insert`). -/
def update_device (o : Orchestrator) (dev : Device) : Orchestrator :=
  if o.devices.any fun p => p.1 = dev.id then
    { o with devices := o.devices.map fun p => if p.1 = dev.id then (dev.id, dev) else p }
  else
    { o with devices := o.devices ++ [(dev.id, dev)] }

/-! HTTP layer of `ESNODE-Orchestrator/src/lib.rs`: `authorize` and the
three handlers, with the `HeaderMap` reduced to the optional
`Authorization` header value and the response to success-or-401. -/

/-- Result of the bearer-token check. -/
inductive AuthResult where
  | ok
  | unauthorized
deriving DecidableEq, Repr

/-- The `authorize` function: with no configured token every request is
accepted; with a token the `Authorization` header must equal
`Bearer <token>`. -/
def authorize (auth_header : Option String) (token : Option String) : AuthResult :=
  match token with
  | none => .ok
  | some tok =>
    let expected := "Bearer " ++ tok
    match auth_header with
    | some h => if h = expected then .ok else .unauthorized
    | none => .unauthorized

/-- Outcome of `submit_task_handler`: assigned to a device or queued. -/
inductive SubmitStatus where
  | assigned (device : String)
  | queued
deriving DecidableEq, Repr

/-- submit_task_handler: authorize, then try immediate placement;
`.error .unauthorized` models the 401 response. -/
def submit_task_handler (auth_header : Option String) (token : Option String)
    (o : Orchestrator) (task : Task) : Except AuthResult (SubmitStatus × Orchestrator) :=
  match authorize auth_header token with
  | .unauthorized => .error .unauthorized
  | .ok =>
    match pick_device_for_task o task with
    | some dev_id => .ok (.assigned dev_id, register_assignment o dev_id task)
    | none => .ok (.queued, { o with pending_tasks := o.pending_tasks ++ [task] })

/-- heartbeat_handler (`POST /register`): authorize, then upsert. -/
def heartbeat_handler (auth_header : Option String) (token : Option String)
    (o : Orchestrator) (dev : Device) : Except AuthResult Orchestrator :=
  match authorize auth_header token with
  | .unauthorized => .error .unauthorized
  | .ok => .ok (update_device o dev)

/-- The scheduler-view record returned by `GET /orchestrator/metrics`. -/
structure PubMetrics where
  device_count : ℕ
  pending_tasks : ℕ
deriving DecidableEq, Repr

/-- metrics_handler (`GET /metrics`): authorize, then snapshot counts. -/
def metrics_handler (auth_header : Option String) (token : Option String)
    (o : Orchestrator) : Except AuthResult PubMetrics :=
  match authorize auth_header token with
  | .unauthorized => .error .unauthorized
  | .ok => .ok { device_count := o.devices.length, pending_tasks := o.pending_tasks.length }

end Orch

namespace St

/-! ## crates/agent-core/src/state.rs

Only the fields of `StatusState` that the claims touch are carried;
each is updated independently in the source (atomics / short locks),
so a record of the current field values is a faithful model of the
state each setter and `snapshot()` observes. -/

/-- The relevant fields of `StatusState`: node power stored as an
atomic `u64` of microwatts, the optional application token rate, and
the three degradation booleans. -/
structure StatusState where
  node_power_microwatts : ℕ
  app_tokens_per_sec : Option ℚ
  disk_degraded : Bool
  network_degraded : Bool
  swap_degraded : Bool
deriving DecidableEq

/-- The corresponding fields of `StatusSnapshot`. -/
structure StatusSnapshot where
  node_power_watts : Option ℚ
  app_tokens_per_sec : Option ℚ
  app_tokens_per_watt : Option ℚ
  disk_degraded : Bool
  network_degraded : Bool
  swap_degraded : Bool
  degradation_score : ℕ
deriving DecidableEq

/-- StatusState::snapshot, restricted to the carried fields.
`node_power_watts` is `None` exactly when the stored microwatt scalar
is zero; `app_tokens_per_watt` requires a strictly positive microwatt
reading. -/
def snapshot (st : StatusState) : StatusSnapshot :=
  { node_power_watts :=
      if st.node_power_microwatts = 0 then none
      else some ((st.node_power_microwatts : ℚ) / 1000000)
    app_tokens_per_sec := st.app_tokens_per_sec
    app_tokens_per_watt :=
      (match st.app_tokens_per_sec with
        | some tokens =>
          if 0 < st.node_power_microwatts then
            some (tokens / ((st.node_power_microwatts : ℚ) / 1000000))
          else none
        | none => none)
    disk_degraded := st.disk_degraded
    network_degraded := st.network_degraded
    swap_degraded := st.swap_degraded
    degradation_score :=
      (if st.disk_degraded then 1 else 0) + (if st.network_degraded then 1 else 0) +
        (if st.swap_degraded then 1 else 0) }

/-- Rust `f64 as u64`: truncation toward zero, negative values clamp
to 0 (the `u64::MAX` saturation is irrelevant to the claims).  The
floor of a non-negative rational equals truncation toward zero.
`q.num / q.den` is the floor since the denominator is positive. -/
def ratToU64 (q : ℚ) : ℕ :=
  (q.num / (q.den : ℤ)).toNat

/-- StatusState::set_node_power — stores `(watts * 1_000_000.0) as u64`. -/
def set_node_power (st : StatusState) (watts : ℚ) : StatusState :=
  { st with node_power_microwatts := ratToU64 (watts * 1000000) }

/-- StatusState::set_network_degraded. -/
def set_network_degraded (st : StatusState) (degraded : Bool) : StatusState :=
  { st with network_degraded := degraded }

end St

namespace Power

/-! ## crates/agent-core/src/collectors/power.rs -/

/-- The wrap-corrected raw counter delta computed inside
`calculate_power_watts` (lines 163-170): forward moves subtract;
backward moves recover `range - (prev - curr)` via `checked_sub`
(which yields `None`, hence delta 0, when `prev - curr > range`), and
0 when no range is available. -/
def counterDelta (current_uj previous_uj : ℕ) (max_range_uj : Option ℕ) : ℕ :=
  if previous_uj ≤ current_uj then current_uj - previous_uj
  else
    match max_range_uj with
    | some range =>
      if previous_uj - current_uj ≤ range then range - (previous_uj - current_uj)
      else 0
    | none => 0

/-- calculate_power_watts: `None` on a zero interval, else
`(delta_uj / 1e6) / dt` watts. -/
def calculate_power_watts (current_uj previous_uj : ℕ) (dt : ℚ)
    (max_range_uj : Option ℕ) : Option ℚ :=
  if dt = 0 then none
  else some (((counterDelta current_uj previous_uj max_range_uj : ℚ) / 1000000) / dt)

/-- Per-zone previous-value state of `RaplZone` (`last_energy_uj`,
`last_ts`; the `Instant` is modelled as a rational timestamp in
seconds). -/
structure RaplZoneState where
  last_energy_uj : Option ℕ
  last_ts : Option ℚ
deriving DecidableEq

/-- Floor of a rational as an integer (`q.den` is positive, so integer
division of `num` by `den` is the floor). -/
def ratFloor (q : ℚ) : ℤ :=
  q.num / (q.den : ℤ)

/-- One `collect_rapl` iteration for one zone: a failed energy read
skips the zone; a primed zone (both previous values present) computes
watts over `dt = now - prev_ts` (saturated at 0, as
`Instant::duration_since` saturates) and bumps the cumulative joules
counter by `(watts * dt).floor() as u64`; the zone state is then
re-armed with the new reading.  The counter is the prometheus
`cpu_package_energy_joules_total` value as a `u64`. -/
def raplStep (zone : RaplZoneState) (energy_reading : Option ℕ) (now : ℚ)
    (max_range_uj : Option ℕ) (counter : ℕ) : RaplZoneState × ℕ :=
  match energy_reading with
  | none => (zone, counter)
  | some energy =>
    let inc : ℕ :=
      (match zone.last_energy_uj, zone.last_ts with
        | some prev_energy, some prev_ts =>
          let dt := max (now - prev_ts) 0
          (match calculate_power_watts energy prev_energy dt max_range_uj with
            | some watts => (ratFloor (watts * dt)).toNat
            | none => 0)
        | _, _ => 0)
    ({ last_energy_uj := some energy, last_ts := some now }, counter + inc)

/-- A whole scrape history for one zone: fold `raplStep` over a list of
`(reading, now, max_range)` observations. -/
def runRapl (zone : RaplZoneState) (counter : ℕ)
    (ticks : List (Option ℕ × ℚ × Option ℕ)) : RaplZoneState × ℕ :=
  ticks.foldl (fun acc t => raplStep acc.1 t.1 t.2.1 t.2.2 acc.2) (zone, counter)

end Power

namespace Net

/-! ## crates/agent-core/src/collectors/network.rs -/

/-- The per-interface previous-value record `NetworkSnapshot`
(`#[derive(Default)]`: all counters start at 0). -/
structure NetworkSnapshot where
  rx : ℕ
  tx : ℕ
  rx_errors : ℕ
  rx_packets : ℕ
  tx_packets : ℕ
  rx_dropped : ℕ
  tx_dropped : ℕ
deriving DecidableEq

/-- Default (all-zero) `NetworkSnapshot`. -/
def netDefault : NetworkSnapshot :=
  ⟨0, 0, 0, 0, 0, 0, 0⟩

/-- Values parsed from one `/proc/net/dev` row (`NetDevVals`). -/
structure NetDevVals where
  rx_packets : ℕ
  tx_packets : ℕ
  rx_dropped : ℕ
  tx_dropped : ℕ
deriving DecidableEq

/-- `self.previous.entry(iface).or_default()` read side: the stored
snapshot for an interface, or the default. -/
def lookupOr (m : List (String × NetworkSnapshot)) (iface : String) : NetworkSnapshot :=
  match m.find? (fun p => p.1 = iface) with
  | some p => p.2
  | none => netDefault

/-- `self.previous.insert(iface, snap)`: replace the entry in place,
else append (models `HashMap::insert`). -/
def insertSnap (m : List (String × NetworkSnapshot)) (iface : String)
    (snap : NetworkSnapshot) : List (String × NetworkSnapshot) :=
  if m.any fun p => p.1 = iface then
    m.map fun p => if p.1 = iface then (iface, snap) else p
  else
    m ++ [(iface, snap)]

/-- Phase 1 of NetworkCollector::collect: the sysinfo loop updates the
`rx`/`tx`/`rx_errors` fields of each visible interface's snapshot (the
byte-delta metric writes do not feed the degradation flag). -/
def updateSysinfo (previous : List (String × NetworkSnapshot))
    (sysNets : List (String × ℕ × ℕ × ℕ)) : List (String × NetworkSnapshot) :=
  sysNets.foldl
    (fun m e =>
      let p := lookupOr m e.1
      insertSnap m e.1 { p with rx := e.2.1, tx := e.2.2.1, rx_errors := e.2.2.2 })
    previous

/-- Phase 2 of NetworkCollector::collect: the `/proc/net/dev` loop
overwrites the packet and drop counters of each listed interface's
snapshot with the freshly read cumulative totals. -/
def updateNetdev (previous : List (String × NetworkSnapshot))
    (netdev : Option (List (String × NetDevVals))) : List (String × NetworkSnapshot) :=
  match netdev with
  | none => previous
  | some rows =>
    rows.foldl
      (fun m e =>
        let p := lookupOr m e.1
        insertSnap m e.1
          { p with
            rx_packets := e.2.rx_packets, tx_packets := e.2.tx_packets,
            rx_dropped := e.2.rx_dropped, tx_dropped := e.2.tx_dropped })
      previous

/-- NetworkCollector::collect, restricted to the state and outputs that
feed the `network_degraded` flag: returns the flag finally stored in
the status store, the updated `previous` map, and the updated
`prev_tcp_retrans`.  The flag is first set to `any_drops` — computed
from the CUMULATIVE drop totals stored in `previous` — and then forced
to `true` when a primed TCP retransmission reading increased
(`saturating_sub` of the totals is positive). -/
def collectNetwork (previous : List (String × NetworkSnapshot)) (prev_tcp : Option ℕ)
    (sysNets : List (String × ℕ × ℕ × ℕ)) (netdev : Option (List (String × NetDevVals)))
    (tcp : Option ℕ) : Bool × List (String × NetworkSnapshot) × Option ℕ :=
  let prev2 := updateNetdev (updateSysinfo previous sysNets) netdev
  let any_drops := prev2.any fun p => decide (0 < p.2.rx_dropped) || decide (0 < p.2.tx_dropped)
  match tcp with
  | none => (any_drops, prev2, prev_tcp)
  | some retrans_total =>
    (match prev_tcp with
      | some prev =>
        ((any_drops || decide (prev < retrans_total)), prev2, some retrans_total)
      | none => (any_drops, prev2, some retrans_total))

/-- The flag the claim describes, written from the spec sentence: true
exactly when some interface's drop counters increased during THIS tick
(delta of the cumulative totals against the stored previous values), or
the TCP retransmission counter increased during this tick. -/
def specNetworkDegraded (previous : List (String × NetworkSnapshot)) (prev_tcp : Option ℕ)
    (netdev : Option (List (String × NetDevVals))) (tcp : Option ℕ) : Bool :=
  let drops_this_tick :=
    (match netdev with
      | none => false
      | some rows =>
        rows.any fun e =>
          let p := lookupOr previous e.1
          decide (p.rx_dropped < e.2.rx_dropped) || decide (p.tx_dropped < e.2.tx_dropped))
  let retrans_this_tick :=
    (match tcp, prev_tcp with
      | some t, some p => decide (p < t)
      | _, _ => false)
  drops_this_tick || retrans_this_tick

end Net

namespace Tsdb

/-! ## crates/agent-core/src/tsdb.rs — write path -/

/-- Sample from `tsdb.rs` (labels as an association list; `f64` value
as ℚ). -/
structure Sample where
  metric : String
  labels : List (String × String)
  ts_ms : ℤ
  value : ℚ
deriving DecidableEq

/-- `BLOCK_DURATION` in milliseconds (2 h). -/
def BLOCK_DURATION_MS : ℤ := 7200000

/-- One on-disk block directory: its name, the window parsed into the
writer's `BlockMeta`, and the contents of `samples.jsonl` (buffering by
`BufWriter` only delays durability, not the bytes eventually appended,
so the model appends at write time). -/
structure BlockDirState where
  name : String
  start_ms : ℤ
  end_ms : ℤ
  samples : List Sample
deriving DecidableEq

/-- The mutable state of `LocalTsdb`: the block directories on disk and
the open writer `(start_ms, end_ms, dir name)` when present. -/
structure TsdbState where
  disk : List BlockDirState
  current : Option (ℤ × ℤ × String)
deriving DecidableEq

/-- The block directory name `format!("{start_ms}-{end_ms}")`. -/
def blockDirName (start_ms end_ms : ℤ) : String :=
  toString start_ms ++ "-" ++ toString end_ms

/-- BlockWriter::create: `create_dir_all` keeps an existing directory
(and the `append`-mode open keeps its samples file), else the directory
is created empty; the writer is armed for the window.  Existence is
tested by the window pair, which determines the directory name. -/
def createBlockWriter (st : TsdbState) (start_ms end_ms : ℤ) : TsdbState :=
  let disk' :=
    if st.disk.any fun b => b.start_ms = start_ms ∧ b.end_ms = end_ms then st.disk
    else st.disk ++ [⟨blockDirName start_ms end_ms, start_ms, end_ms, []⟩]
  { disk := disk', current := some (start_ms, end_ms, blockDirName start_ms end_ms) }

/-- LocalTsdb::ensure_block_for_ts.  Rust `i64` division truncates
toward zero, hence `Int.tdiv`.  Finalizing the old writer only flushes
and writes metadata, so it has no effect on the modelled sample
contents. -/
def ensure_block_for_ts (ts_ms : ℤ) (st : TsdbState) : TsdbState :=
  let window_start := (Int.tdiv ts_ms BLOCK_DURATION_MS) * BLOCK_DURATION_MS
  let window_end := window_start + BLOCK_DURATION_MS
  let needs_new :=
    (match st.current with
      | some (s, e, _) => decide (ts_ms < s) || decide (e ≤ ts_ms)
      | none => true)
  if needs_new then createBlockWriter st window_start window_end else st

/-- BlockWriter::write_sample: append the encoded sample to the open
writer's own samples file (the writer holds the handle of the directory
it was created for, identified by its window). -/
def write_sample (st : TsdbState) (sample : Sample) : TsdbState :=
  match st.current with
  | some (s, e, _) =>
    { st with
      disk := st.disk.map fun b =>
        if b.start_ms = s ∧ b.end_ms = e then { b with samples := b.samples ++ [sample] }
        else b }
  | none => st

/-- LocalTsdb::write_samples: per sample, ensure the block for its
timestamp, then append. -/
def write_samples (st : TsdbState) (samples : List Sample) : TsdbState :=
  if samples.isEmpty then st
  else samples.foldl (fun acc sample => write_sample (ensure_block_for_ts sample.ts_ms acc) sample) st

/-- A fresh `LocalTsdb` over an empty directory. -/
def initState : TsdbState :=
  ⟨[], none⟩

/-- A sequence of `write_samples` calls starting from the empty state. -/
def runBatches (batches : List (List Sample)) : TsdbState :=
  batches.foldl write_samples initState

/-! ## crates/agent-core/src/tsdb.rs — pruning -/

/-- One entry of the TSDB root directory as seen by `read_dir`. -/
structure DirEntry where
  name : String
  is_dir : Bool
  size_bytes : ℕ
deriving DecidableEq

/-- BlockInfo from `tsdb.rs` (the `index` field is not read by
`prune`). -/
structure BlockInfo where
  dir : String
  start_ms : ℤ
  end_ms : ℤ
  size_bytes : ℕ
deriving DecidableEq

/-- Numeric value of a decimal digit character. -/
def digitVal (c : Char) : Option ℕ :=
  if c.isDigit then some (c.toNat - 48) else none

/-- Parse a non-empty all-digit character list as a natural number;
models `str::parse::<i64>` on the dash-free pieces produced by
`split('-')` (on which any successful parse is non-negative; values
beyond `i64::MAX` do not occur in the claims). -/
def parseNatChars : List Char → Option ℕ
  | [] => none
  | cs =>
    cs.foldl
      (fun acc c =>
        match acc, digitVal c with
        | some n, some d => some (n * 10 + d)
        | _, _ => none)
      (some 0)

/-- Rust `str::split('-')` on the character list (keeps empty pieces;
`""` yields one empty piece). -/
def splitDash : List Char → List (List Char)
  | [] => [[]]
  | c :: rest =>
    let r := splitDash rest
    if c = '-' then [] :: r
    else
      match r with
      | h :: t => (c :: h) :: t
      | [] => [[c]]

/-- The per-entry body of LocalTsdb::list_blocks: keep directories
whose name splits on `-` into exactly two parseable numbers. -/
def parseBlockEntry (e : DirEntry) : Option BlockInfo :=
  if e.is_dir then
    match splitDash e.name.data with
    | [p0, p1] =>
      (match parseNatChars p0, parseNatChars p1 with
        | some s, some en => some ⟨e.name, (s : ℤ), (en : ℤ), e.size_bytes⟩
        | _, _ => none)
    | _ => none
  else none

/-- LocalTsdb::list_blocks over a directory listing. -/
def list_blocks (entries : List DirEntry) : List BlockInfo :=
  entries.filterMap parseBlockEntry

/-- Stable insertion into a list sorted by ascending `start_ms`
(inserts after every element with `start_ms ≤` the new key). -/
def insertByStart (b : BlockInfo) : List BlockInfo → List BlockInfo
  | [] => [b]
  | x :: xs =>
    if x.start_ms ≤ b.start_ms then x :: insertByStart b xs
    else b :: x :: xs

/-- Stable sort by `start_ms`; models `sort_by_key(|b| b.start_ms)`
(Rust's sort is stable, as is insertion sort). -/
def sortByStart (l : List BlockInfo) : List BlockInfo :=
  l.foldl (fun acc b => insertByStart b acc) []

/-- The disk-budget loop of LocalTsdb::prune: walk the blocks oldest
first, deleting while the running total exceeds the budget (the model
takes `remove_dir_all` to succeed); returns the deleted blocks. -/
def budgetLoop (max_bytes : ℤ) : ℤ → List BlockInfo → List BlockInfo
  | _, [] => []
  | total, b :: rest =>
    if total ≤ max_bytes then []
    else b :: budgetLoop max_bytes (total - (b.size_bytes : ℤ)) rest

/-- Retention phase of LocalTsdb::prune: delete every enumerated block
whose `end_ms` is older than the retention horizon.  Removal is by
directory name. -/
def pruneRetention (retention_hours : ℕ) (now_ms : ℤ) (entries : List DirEntry) :
    List DirEntry :=
  let retention_ms : ℤ := (retention_hours : ℤ) * 60 * 60 * 1000
  let expired := (list_blocks entries).filter fun b => b.end_ms < now_ms - retention_ms
  entries.filter fun e => !(expired.any fun b => b.dir = e.name)

/-- LocalTsdb::prune: retention phase, re-scan, then the disk-budget
phase over the surviving blocks sorted by `start_ms`.  No directory is
excluded: the current (open) block's directory is a candidate like any
other. -/
def prune (retention_hours max_disk_mb : ℕ) (now_ms : ℤ) (entries : List DirEntry) :
    List DirEntry :=
  let max_bytes : ℤ := (max_disk_mb : ℤ) * 1024 * 1024
  let entries1 := pruneRetention retention_hours now_ms entries
  let blocks1 := list_blocks entries1
  let total : ℤ := (blocks1.map fun b => (b.size_bytes : ℤ)).sum
  if total ≤ max_bytes then entries1
  else
    let deleted := budgetLoop max_bytes total (sortByStart blocks1)
    entries1.filter fun e => !(deleted.any fun b => b.dir = e.name)

end Tsdb

namespace Export

/-! ## crates/agent-core/src/tsdb.rs — replay export -/

open Tsdb (Sample)

/-- One block as `export_lines` reads it back from disk: the window
from the directory name, the parsed `index.json` metric names (the keys
of `metric_counts`; the counts themselves are not consulted by the
pre-check), and the parsed lines of `samples.jsonl`. -/
structure BlockFile where
  start_ms : ℤ
  end_ms : ℤ
  indexNames : Option (List String)
  samples : List Sample
deriving DecidableEq

/-- The `overlaps` range pre-check (`end >= from && start <= to`,
missing bounds pass). -/
def overlaps (start_ms end_ms : ℤ) (fromMs toMs : Option ℤ) : Bool :=
  (match fromMs with
    | none => true
    | some f => decide (f ≤ end_ms)) &&
  (match toMs with
    | none => true
    | some t => decide (start_ms ≤ t))

/-- timestamp_in_range: `ts >= from && ts <= to`, missing bounds pass. -/
def timestamp_in_range (ts : ℤ) (fromMs toMs : Option ℤ) : Bool :=
  (match fromMs with
    | none => true
    | some f => decide (f ≤ ts)) &&
  (match toMs with
    | none => true
    | some t => decide (ts ≤ t))

/-- Does the character list end with `*`?  Models `str::ends_with('*')`. -/
def endsWithStar (cs : List Char) : Bool :=
  match cs.reverse with
  | [] => false
  | c :: _ => c = '*'

/-- Remove every trailing `*`; models `trim_end_matches('*')`. -/
def trimEndStars (cs : List Char) : List Char :=
  (cs.reverse.dropWhile fun c => c = '*').reverse

/-- matches_metric: exact name match, or trailing-wildcard match. -/
def matches_metric (metric : String) (filters : List String) : Bool :=
  filters.any fun f =>
    if endsWithStar f.data then startsWithChars metric.data (trimEndStars f.data)
    else metric = f

/-- metrics_match_index: does any filter touch any metric name recorded
in the block index? -/
def metrics_match_index (filters : List String) (names : List String) : Bool :=
  filters.any fun f =>
    if endsWithStar f.data then names.any fun m => startsWithChars m.data (trimEndStars f.data)
    else names.contains f

/-- Stable insertion by label key using the lexicographic string order;
builds the sort in `format_export_line`. -/
def insertLabel (kv : String × String) : List (String × String) → List (String × String)
  | [] => [kv]
  | x :: xs =>
    if charListLe x.1.data kv.1.data then x :: insertLabel kv xs
    else kv :: x :: xs

/-- `labels.sort_by_key(|(k, _)| *k)` — stable sort by key. -/
def sortLabels (labels : List (String × String)) : List (String × String) :=
  labels.foldl (fun acc kv => insertLabel kv acc) []

/-- `parts.join(",")`. -/
def joinComma : List String → String
  | [] => ""
  | [x] => x
  | x :: xs => x ++ "," ++ joinComma xs

/-- Fixed six-decimal rendering of a rational; models Rust `{:.6}` for
values exactly representable at six decimals (all values in the claims
are): the floor of `q · 10^6`, computed on the numerator and
denominator so the kernel can evaluate it. -/
def formatFixed6 (q : ℚ) : String :=
  let scaled : ℤ := q.num * 1000000 / (q.den : ℤ)
  let n := scaled.toNat
  let whole := toString (n / 1000000)
  let fracDigits := toString (n % 1000000)
  let pad := String.mk (List.replicate (6 - fracDigits.length) '0')
  if scaled < 0 then "-" ++ whole ++ "." ++ pad ++ fracDigits
  else whole ++ "." ++ pad ++ fracDigits

/-- format_export_line: `name{k1="v1",k2="v2"} ts_ms value` with labels
sorted by key (empty label set renders no braces). -/
def format_export_line (s : Sample) : String :=
  let sorted := sortLabels s.labels
  let labels_str :=
    if sorted.isEmpty then ""
    else "\x7b" ++ joinComma (sorted.map fun kv => kv.1 ++ "=\"" ++ kv.2 ++ "\"") ++ "\x7d"
  s.metric ++ labels_str ++ " " ++ toString s.ts_ms ++ " " ++ formatFixed6 s.value

/-- The per-sample filter applied inside the block loop of
export_lines. -/
def keepSample (fromMs toMs : Option ℤ) (metrics : Option (List String)) (s : Sample) : Bool :=
  timestamp_in_range s.ts_ms fromMs toMs &&
    (match metrics with
      | none => true
      | some filters => matches_metric s.metric filters)

/-- The lines contributed by one block: nothing when the index
pre-check rejects it, else the rendered matching samples in file
order. -/
def blockLines (fromMs toMs : Option ℤ) (metrics : Option (List String)) (b : BlockFile) :
    List String :=
  let skip :=
    (match metrics, b.indexNames with
      | some filters, some idx => !(metrics_match_index filters idx)
      | _, _ => false)
  if skip then []
  else (b.samples.filter (keepSample fromMs toMs metrics)).map format_export_line

/-- LocalTsdb::export_lines: snapshot (no effect on the modelled
contents), enumerate blocks, range pre-filter, index pre-check, then
per-sample filtering and rendering, appending in block order. -/
def export_lines (blocks : List BlockFile) (fromMs toMs : Option ℤ)
    (metrics : Option (List String)) : List String :=
  (blocks.filter fun b => overlaps b.start_ms b.end_ms fromMs toMs).foldl
    (fun out b => out ++ blockLines fromMs toMs metrics b) []

end Export

/-! ## Claim C9 — no configured token accepts every request -/

/-- C9: when no orchestrator bearer token is configured, the
authorization check accepts every request: `authorize` returns ok for
any header, and all three orchestrator handlers (`/register`,
`/submit`, `/metrics`) succeed — a 401 is never produced. -/
theorem c9_no_token_accepts_all (auth_header : Option String) (o : Orch.Orchestrator)
    (task : Orch.Task) (dev : Orch.Device) :
    Orch.authorize auth_header none = .ok ∧
    (∃ r, Orch.submit_task_handler auth_header none o task = .ok r) ∧
    (∃ r, Orch.heartbeat_handler auth_header none o dev = .ok r) ∧
    (∃ r, Orch.metrics_handler auth_header none o = .ok r) := by
  refine ⟨rfl, ?_, ⟨_, rfl⟩, ⟨_, rfl⟩⟩
  unfold Orch.submit_task_handler Orch.authorize
  cases Orch.pick_device_for_task o task <;> exact ⟨_, rfl⟩

/-! ## Claim C10 — zero node power is reported as absent -/

/-- C10: `snapshot` reports `node_power_watts` as absent exactly when
the stored microwatt scalar is zero; `set_node_power 0` stores zero, so
a genuine 0 W reading is indistinguishable from no reading; and with a
zero scalar `app_tokens_per_watt` is absent regardless of
`app_tokens_per_sec`. -/
theorem c10_zero_power_indistinguishable (st : St.StatusState) :
    ((St.snapshot st).node_power_watts = none ↔ st.node_power_microwatts = 0) ∧
    (St.set_node_power st 0).node_power_microwatts = 0 ∧
    (St.snapshot (St.set_node_power st 0)).node_power_watts = none ∧
    (st.node_power_microwatts = 0 → (St.snapshot st).app_tokens_per_watt = none) := by
  have hset : (St.set_node_power st 0).node_power_microwatts = 0 := by
    simp [St.set_node_power, St.ratToU64]
  refine ⟨?_, hset, ?_, ?_⟩
  · by_cases h : st.node_power_microwatts = 0 <;> simp [St.snapshot, h]
  · simp [St.snapshot, hset]
  · intro h
    cases htok : st.app_tokens_per_sec <;> simp [St.snapshot, h, htok]

/-- C10 witness: a state that stored a genuine 0 W reading while the
token rate is present still snapshots with absent power and absent
tokens-per-watt. -/
theorem c10_witness :
    (St.snapshot (St.set_node_power ⟨77, some 5, false, false, false⟩ 0)).node_power_watts
        = none ∧
    ((St.snapshot ⟨0, some 5, false, false, false⟩).node_power_watts = none ↔
      (⟨0, some 5, false, false, false⟩ : St.StatusState).node_power_microwatts = 0) ∧
    (St.snapshot ⟨0, some 5, false, false, false⟩).app_tokens_per_watt = none :=
  ⟨(c10_zero_power_indistinguishable ⟨77, some 5, false, false, false⟩).2.2.1,
   (c10_zero_power_indistinguishable ⟨0, some 5, false, false, false⟩).1,
   (c10_zero_power_indistinguishable ⟨0, some 5, false, false, false⟩).2.2.2 rfl⟩

/-! ## Claim C3 — counter wrap-around protocol -/

/-- C3: in the counter delta protocol, a backward move with a declared
range `R` yields delta `R - (prev - curr)` (251 for 10 → 5 with R =
256); a backward move exceeding the range, or without a range, yields
0; a priming observation bumps the counter by nothing; and the
cumulative joules counter never decreases across any run. -/
theorem c3_wrap_around_protocol :
    (∀ prev curr range, curr < prev → prev - curr ≤ range →
      Power.counterDelta curr prev (some range) = range - (prev - curr)) ∧
    (∀ prev curr range, curr < prev → range < prev - curr →
      Power.counterDelta curr prev (some range) = 0) ∧
    (∀ prev curr, curr < prev → Power.counterDelta curr prev none = 0) ∧
    (∀ (zone : Power.RaplZoneState) reading now mr counter,
      zone.last_energy_uj = none ∨ zone.last_ts = none →
      (Power.raplStep zone reading now mr counter).2 = counter) ∧
    (∀ zone counter ticks, counter ≤ (Power.runRapl zone counter ticks).2) := by
  have hstep : ∀ (zone : Power.RaplZoneState) reading now mr counter,
      counter ≤ (Power.raplStep zone reading now mr counter).2 := by
    intro zone reading now mr counter
    cases reading <;> simp [Power.raplStep]
  refine ⟨?_, ?_, ?_, ?_, ?_⟩
  · intro prev curr range h1 h2
    simp [Power.counterDelta, Nat.not_le.mpr h1, h2]
  · intro prev curr range h1 h2
    simp [Power.counterDelta, Nat.not_le.mpr h1, Nat.not_le.mpr h2]
  · intro prev curr h1
    simp [Power.counterDelta, Nat.not_le.mpr h1]
  · intro zone reading now mr counter h
    cases reading with
    | none => rfl
    | some e =>
      cases h1 : zone.last_energy_uj <;> cases h2 : zone.last_ts <;>
        simp_all [Power.raplStep, h1, h2]
  · intro zone counter ticks
    induction ticks generalizing zone counter with
    | nil => exact le_rfl
    | cons t ts ih =>
      calc counter ≤ (Power.raplStep zone t.1 t.2.1 t.2.2 counter).2 :=
            hstep zone t.1 t.2.1 t.2.2 counter
        _ ≤ _ := by
            have := ih (Power.raplStep zone t.1 t.2.1 t.2.2 counter).1
              (Power.raplStep zone t.1 t.2.1 t.2.2 counter).2
            simpa [Power.runRapl] using this

/-- C3 witness: the E4 instance 10 → 5 with R = 256 yields 251; a range
smaller than the backward move, or a missing range, yields 0; a priming
step leaves the counter at its prior value 42. -/
theorem c3_witness :
    Power.counterDelta 5 10 (some 256) = 251 ∧
    Power.counterDelta 5 10 (some 4) = 0 ∧
    Power.counterDelta 5 10 none = 0 ∧
    (Power.raplStep ⟨none, none⟩ (some 100) 0 none 42).2 = 42 := by
  refine ⟨?_, ?_, ?_, ?_⟩
  · have h := c3_wrap_around_protocol.1 10 5 256 (by decide) (by decide)
    simpa using h
  · exact c3_wrap_around_protocol.2.1 10 5 4 (by decide) (by decide)
  · exact c3_wrap_around_protocol.2.2.1 10 5 (by decide)
  · exact c3_wrap_around_protocol.2.2.2.1 ⟨none, none⟩ (some 100) 0 none 42 (Or.inl rfl)

/-! ## Claim C5 — the E2 placement example picks device A -/

/-- Device A of scenario E2. -/
def c5devA : Orch.Device :=
  { id := "A", kind := .gpu, peak_flops_tflops := 100, mem_gb := 0,
    power_watts_idle := 50, power_watts_max := 250, current_load := 1/10 }

/-- Device B of scenario E2. -/
def c5devB : Orch.Device :=
  { id := "B", kind := .gpu, peak_flops_tflops := 50, mem_gb := 0,
    power_watts_idle := 40, power_watts_max := 150, current_load := 1/10 }

/-- The task of scenario E2. -/
def c5task : Orch.Task :=
  { id := "t", est_flops := 10^13, est_bytes := 10^9, latency_class := .high,
    preferred_kinds := none }

/-- C5: with default weights, device A's score strictly exceeds B's,
and `pick_device_for_task` returns A under either iteration order of
the device map. -/
theorem c5_placement_picks_A :
    Orch.pick_device_for_task (Orch.Orchestrator.new [("A", c5devA), ("B", c5devB)]) c5task
        = some "A" ∧
    Orch.pick_device_for_task (Orch.Orchestrator.new [("B", c5devB), ("A", c5devA)]) c5task
        = some "A" ∧
    Orch.score (Orch.Orchestrator.new [("A", c5devA), ("B", c5devB)]) c5task c5devB <
      Orch.score (Orch.Orchestrator.new [("A", c5devA), ("B", c5devB)]) c5task c5devA := by
  refine ⟨?_, ?_, ?_⟩ <;>
    norm_num [Orch.pick_device_for_task, Orch.pickAux, Orch.qualifies, Orch.beatsBest,
      Orch.device_allowed, Orch.score, Orch.perf_score, Orch.energy_score,
      Orch.congestion_penalty, Orch.data_movement_cost, Orch.latency_weight,
      Orch.Orchestrator.new, c5devA, c5devB, c5task]

/-! ## Claim C6 — load update bounds -/

/-- The counterexample device for C6: a (spec-legal) device record with
a negative `peak_flops_tflops`. -/
def c6dev : Orch.Device :=
  { id := "D", kind := .gpu, peak_flops_tflops := -1, mem_gb := 0,
    power_watts_idle := 0, power_watts_max := 0, current_load := 1/10 }

/-- The task used against the C6 counterexample device. -/
def c6task : Orch.Task :=
  { id := "t", est_flops := 10^13, est_bytes := 0, latency_class := .high,
    preferred_kinds := none }

/-- C6 counterexample: the claim quantifies over every device with
`current_load ∈ [0,1]` and every task with `est_flops ≥ 0`, but for a
device with `peak_flops_tflops = -1` the assignment drives the load to
-9.9, outside [0, 1] (the Rust computation is the same:
`1e13 / -1e12 = -10`, `(-10).min(0.5) = -10`). -/
theorem c6_counterexample :
    (0 : ℚ) ≤ c6task.est_flops ∧ (0 : ℚ) ≤ c6dev.current_load ∧
    c6dev.current_load ≤ 1 ∧
    (Orch.applyAssignment c6dev c6task).current_load < 0 := by
  norm_num [Orch.applyAssignment, c6dev, c6task]

/-- C6 amended: additionally assuming a non-negative
`peak_flops_tflops`, after an assignment the chosen device's load stays
in [0, 1], never decreases, and increases by at most 0.5; consequently
every device of an orchestrator whose devices all satisfy these field
bounds still has `current_load ∈ [0, 1]` after `register_assignment`. -/
theorem c6_amended_load_bounds (dev : Orch.Device) (task : Orch.Task)
    (o : Orch.Orchestrator) (device_id : String)
    (h1 : 0 ≤ task.est_flops) (h2 : 0 ≤ dev.peak_flops_tflops)
    (h3 : 0 ≤ dev.current_load) (h4 : dev.current_load ≤ 1)
    (hall : ∀ p ∈ o.devices, 0 ≤ (p.2 : Orch.Device).peak_flops_tflops ∧
      0 ≤ (p.2 : Orch.Device).current_load ∧ (p.2 : Orch.Device).current_load ≤ 1) :
    (0 ≤ (Orch.applyAssignment dev task).current_load ∧
      (Orch.applyAssignment dev task).current_load ≤ 1 ∧
      dev.current_load ≤ (Orch.applyAssignment dev task).current_load ∧
      (Orch.applyAssignment dev task).current_load - dev.current_load ≤ 1/2) ∧
    ∀ p ∈ (Orch.register_assignment o device_id task).devices,
      0 ≤ (p.2 : Orch.Device).current_load ∧ (p.2 : Orch.Device).current_load ≤ 1 := by
  have core : ∀ d : Orch.Device, 0 ≤ d.peak_flops_tflops → 0 ≤ d.current_load →
      d.current_load ≤ 1 →
      0 ≤ (Orch.applyAssignment d task).current_load ∧
        (Orch.applyAssignment d task).current_load ≤ 1 ∧
        d.current_load ≤ (Orch.applyAssignment d task).current_load ∧
        (Orch.applyAssignment d task).current_load - d.current_load ≤ 1/2 := by
    intro d hp hl hu
    have hpeak : (0 : ℚ) ≤ d.peak_flops_tflops * 10^12 := by positivity
    have hdiv : (0 : ℚ) ≤ task.est_flops / (d.peak_flops_tflops * 10^12) :=
      div_nonneg h1 hpeak
    have hinc0 : (0 : ℚ) ≤ min (task.est_flops / (d.peak_flops_tflops * 10^12)) (1/2) :=
      le_min hdiv (by norm_num)
    have hinc2 : min (task.est_flops / (d.peak_flops_tflops * 10^12)) (1/2) ≤ 1/2 :=
      min_le_right _ _
    constructor
    · exact le_min (add_nonneg hl hinc0) (by norm_num)
    refine ⟨min_le_right _ _, ?_, ?_⟩
    · exact le_min (le_add_of_nonneg_right hinc0) hu
    · calc (Orch.applyAssignment d task).current_load - d.current_load
          ≤ (d.current_load + min (task.est_flops / (d.peak_flops_tflops * 10^12)) (1/2))
              - d.current_load := by
            have := min_le_left
              (d.current_load + min (task.est_flops / (d.peak_flops_tflops * 10^12)) (1/2))
              (1 : ℚ)
            simpa [Orch.applyAssignment] using sub_le_sub_right this d.current_load
        _ ≤ 1/2 := by rw [add_sub_cancel_left]; exact hinc2
  refine ⟨core dev h2 h3 h4, ?_⟩
  intro p hp
  rw [Orch.register_assignment] at hp
  simp only [List.mem_map] at hp
  obtain ⟨q, hq, rfl⟩ := hp
  obtain ⟨hqp, hql, hqu⟩ := hall q hq
  by_cases hid : q.1 = device_id
  · simp only [hid, if_pos rfl]
    exact ⟨(core q.2 hqp hql hqu).1, (core q.2 hqp hql hqu).2.1⟩
  · simp only [if_neg hid]
    exact ⟨hql, hqu⟩

/-- C6 witness: a concrete in-range assignment (peak 100 TFLOPS, load
0.1, est 1e13 FLOPs) keeps the load in [0, 1] and the orchestrator's
single device in range. -/
theorem c6_witness :
    (0 ≤ (Orch.applyAssignment c5devA c5task).current_load ∧
      (Orch.applyAssignment c5devA c5task).current_load ≤ 1 ∧
      c5devA.current_load ≤ (Orch.applyAssignment c5devA c5task).current_load ∧
      (Orch.applyAssignment c5devA c5task).current_load - c5devA.current_load ≤ 1/2) ∧
    ∀ p ∈ (Orch.register_assignment (Orch.Orchestrator.new [("A", c5devA)]) "A"
        c5task).devices,
      0 ≤ (p.2 : Orch.Device).current_load ∧ (p.2 : Orch.Device).current_load ≤ 1 :=
  c6_amended_load_bounds c5devA c5task (Orch.Orchestrator.new [("A", c5devA)]) "A"
    (by norm_num [c5task]) (by norm_num [c5devA]) (by norm_num [c5devA])
    (by norm_num [c5devA])
    (by
      intro p hp
      simp only [Orch.Orchestrator.new, List.mem_singleton] at hp
      subst hp
      norm_num [c5devA])

/-! ## Claim C7 — pick_device_for_task as an argmax -/

namespace Orch

/-- Every score recorded in the running best is strictly below `v`
(vacuously true for the initial `NEG_INFINITY`). -/
def accBelow (best : Option (String × ℚ)) (v : ℚ) : Prop :=
  ∀ id s, best = some (id, s) → s < v

/-- The pick loop returns nothing iff it started with no best and no
device qualifies. -/
theorem pickAux_eq_none (o : Orchestrator) (t : Task) :
    ∀ (l : List (String × Device)) (best : Option (String × ℚ)),
      (pickAux o t l best = none ↔ best = none ∧ ∀ p ∈ l, qualifies t p.2 = false) := by
  intro l
  induction l with
  | nil =>
    intro best
    cases best <;> simp [pickAux]
  | cons a rest ih =>
    intro best
    by_cases hq : qualifies t a.2
    · by_cases hb : beatsBest (score o t a.2) best
      · simp only [pickAux, if_pos hq, if_pos hb, ih, List.forall_mem_cons]
        simp [hq]
      · have hsome : ∃ pr, best = some pr := by
          cases best with
          | none => exact absurd (by simp [beatsBest]) hb
          | some pr => exact ⟨pr, rfl⟩
        obtain ⟨pr, rfl⟩ := hsome
        simp only [pickAux, if_pos hq, if_neg hb, ih, List.forall_mem_cons]
        simp [hq]
    · simp only [pickAux, if_neg hq, ih, List.forall_mem_cons]
      simp [Bool.not_eq_true] at hq
      simp [hq]

/-- Structure of a successful pick: the returned id labels a qualifying
device that strictly beats every qualifying device before it (and the
running best it started against) and weakly beats every qualifying
device after it — i.e. the first device attaining the maximal score. -/
theorem pickAux_eq_some (o : Orchestrator) (t : Task) :
    ∀ (l : List (String × Device)) (best : Option (String × ℚ)) (r : String),
      pickAux o t l best = some r →
      (∃ s, best = some (r, s) ∧ ∀ p ∈ l, qualifies t p.2 = true → score o t p.2 ≤ s) ∨
      (∃ l1 p l2, l = l1 ++ p :: l2 ∧ p.1 = r ∧ qualifies t p.2 = true ∧
        accBelow best (score o t p.2) ∧
        (∀ q ∈ l1, qualifies t q.2 = true → score o t q.2 < score o t p.2) ∧
        (∀ q ∈ l2, qualifies t q.2 = true → score o t q.2 ≤ score o t p.2)) := by
  intro l
  induction l with
  | nil =>
    intro best r h
    cases best with
    | none => simp [pickAux] at h
    | some pr =>
      left
      refine ⟨pr.2, ?_, by simp⟩
      simp only [pickAux, Option.map_some] at h
      cases h
      rfl
  | cons a rest ih =>
    intro best r h
    by_cases hq : qualifies t a.2
    · by_cases hb : beatsBest (score o t a.2) best
      · rw [pickAux, if_pos hq] at h
        simp only [if_pos hb] at h
        have hbelow : accBelow best (score o t a.2) := by
          intro id s hbest
          subst hbest
          simpa [beatsBest] using hb
        rcases ih (some (a.1, score o t a.2)) r h with ⟨s, hs, hrest⟩ | hfound
        · right
          have hpair := Option.some.inj hs
          have h1 : a.1 = r := congrArg Prod.fst hpair
          have h2 : score o t a.2 = s := congrArg Prod.snd hpair
          refine ⟨[], a, rest, by simp, h1, hq, hbelow, by simp, ?_⟩
          intro q hqmem hqq
          have hle := hrest q hqmem hqq
          rw [← h2] at hle
          exact hle
        · right
          obtain ⟨l1, p, l2, hsplit, hid, hqp, hbel, hl1, hl2⟩ := hfound
          have hlt : score o t a.2 < score o t p.2 := hbel a.1 (score o t a.2) rfl
          refine ⟨a :: l1, p, l2, by rw [hsplit]; rfl, hid, hqp, ?_, ?_, hl2⟩
          · intro id s hbest
            exact lt_trans (hbelow id s hbest) hlt
          · intro q hqmem
            rcases List.mem_cons.mp hqmem with rfl | hmem
            · intro _; exact hlt
            · exact hl1 q hmem
      · rw [pickAux, if_pos hq] at h
        simp only [if_neg hb] at h
        have hsome : ∃ id0 bs, best = some (id0, bs) ∧ score o t a.2 ≤ bs := by
          cases best with
          | none => exact absurd (by simp [beatsBest]) hb
          | some pr =>
            refine ⟨pr.1, pr.2, by simp, ?_⟩
            have := (Bool.not_eq_true _).mp hb
            simpa [beatsBest] using this
        obtain ⟨id0, bs, rfl, hle⟩ := hsome
        rcases ih (some (id0, bs)) r h with ⟨s, hs, hrest⟩ | hfound
        · left
          have h1 : id0 = r := (Prod.ext_iff.mp (Option.some.inj hs)).1
          have h2 : bs = s := (Prod.ext_iff.mp (Option.some.inj hs)).2
          subst h1
          subst h2
          refine ⟨bs, rfl, ?_⟩
          intro p hp
          rcases List.mem_cons.mp hp with rfl | hmem
          · intro _; exact hle
          · exact hrest p hmem
        · right
          obtain ⟨l1, p, l2, hsplit, hid, hqp, hbel, hl1, hl2⟩ := hfound
          have hbs : bs < score o t p.2 := hbel id0 bs rfl
          refine ⟨a :: l1, p, l2, by rw [hsplit]; rfl, hid, hqp, ?_, ?_, hl2⟩
          · intro id s hbest
            cases Option.some.inj hbest
            exact hbs
          · intro q hqmem
            rcases List.mem_cons.mp hqmem with rfl | hmem
            · intro _; exact lt_of_le_of_lt hle hbs
            · exact hl1 q hmem
    · rw [pickAux, if_neg hq] at h
      rcases ih best r h with ⟨s, hs, hrest⟩ | hfound
      · left
        refine ⟨s, hs, ?_⟩
        intro p hp
        rcases List.mem_cons.mp hp with rfl | hmem
        · intro hqp; exact absurd hqp hq
        · exact hrest p hmem
      · right
        obtain ⟨l1, p, l2, hsplit, hid, hqp, hbel, hl1, hl2⟩ := hfound
        refine ⟨a :: l1, p, l2, by rw [hsplit]; rfl, hid, hqp, hbel, ?_, hl2⟩
        intro q hqmem
        rcases List.mem_cons.mp hqmem with rfl | hmem
        · intro hqa; exact absurd hqa hq
        · exact hl1 q hmem

end Orch

/-- A device used to exhibit the C7 tie-break behaviour. -/
def c7dev : Orch.Device :=
  { id := "X", kind := .gpu, peak_flops_tflops := 100, mem_gb := 0,
    power_watts_idle := 50, power_watts_max := 250, current_load := 1/10 }

/-- The task used for the C7 counterexample. -/
def c7task : Orch.Task :=
  { id := "t", est_flops := 10^13, est_bytes := 10^9, latency_class := .high,
    preferred_kinds := none }

/-- C7 counterexample: two devices with identical (hence tied) scores,
registered as A first and B second.  A `HashMap`'s iteration order is
unspecified and need not be insertion order, so `[("B", d), ("A", d)]`
is a legal iteration order for that map — and under it the pick returns
B, not the earlier-registered A, while under the other order it returns
A.  The tie is therefore broken by iteration order, not registration
order. -/
theorem c7_counterexample :
    Orch.pick_device_for_task (Orch.Orchestrator.new [("B", c7dev), ("A", c7dev)]) c7task
        = some "B" ∧
    Orch.pick_device_for_task (Orch.Orchestrator.new [("A", c7dev), ("B", c7dev)]) c7task
        = some "A" := by
  constructor <;>
    norm_num [Orch.pick_device_for_task, Orch.pickAux, Orch.qualifies, Orch.beatsBest,
      Orch.device_allowed, Orch.Orchestrator.new, c7dev, c7task]

/-- C7 amended: `pick_device_for_task` returns none iff no device
passes the kind filter with `current_load < 0.95`; a successful pick
names a qualifying device whose score strictly exceeds every qualifying
device earlier in the map's iteration order and weakly exceeds every
later one — the first maximal-score candidate in iteration order
(which is unspecified and need not be registration order). -/
theorem c7_amended_first_maximal (o : Orch.Orchestrator) (t : Orch.Task) :
    (Orch.pick_device_for_task o t = none ↔
      ∀ p ∈ o.devices, Orch.qualifies t p.2 = false) ∧
    ∀ r, Orch.pick_device_for_task o t = some r →
      ∃ l1 p l2, o.devices = l1 ++ p :: l2 ∧ p.1 = r ∧ Orch.qualifies t p.2 = true ∧
        (∀ q ∈ l1, Orch.qualifies t q.2 = true →
          Orch.score o t q.2 < Orch.score o t p.2) ∧
        (∀ q ∈ l2, Orch.qualifies t q.2 = true →
          Orch.score o t q.2 ≤ Orch.score o t p.2) := by
  constructor
  · rw [Orch.pick_device_for_task, Orch.pickAux_eq_none]
    simp
  · intro r h
    rcases Orch.pickAux_eq_some o t o.devices none r h with ⟨s, hs, _⟩ | hfound
    · cases hs
    · obtain ⟨l1, p, l2, hsplit, hid, hqp, _, hl1, hl2⟩ := hfound
      exact ⟨l1, p, l2, hsplit, hid, hqp, hl1, hl2⟩

/-- C7 witness: with an empty device map the pick is absent, via the
amended characterization. -/
theorem c7_witness :
    Orch.pick_device_for_task (Orch.Orchestrator.new []) c7task = none :=
  (c7_amended_first_maximal (Orch.Orchestrator.new []) c7task).1.mpr
    (by simp [Orch.Orchestrator.new])

/-! ## Claim C4 — the network_degraded flag -/

/-- Previous-map counterexample state for C4: `eth0` accumulated 5
dropped packets on some earlier tick. -/
def c4prev : List (String × Net.NetworkSnapshot) :=
  [("eth0", { Net.netDefault with rx_dropped := 5 })]

/-- This tick's `/proc/net/dev` reading for C4: the same cumulative
totals — no drop increased during this tick. -/
def c4netdev : Option (List (String × Net.NetDevVals)) :=
  some [("eth0", ⟨10, 10, 5, 0⟩)]

/-- C4 counterexample: on a tick with no new drops and no
retransmission increase, the code still sets `network_degraded` to
true, because the check reads the cumulative totals stored in
`previous` — while the claim's per-tick-delta flag is false. -/
theorem c4_counterexample :
    (Net.collectNetwork c4prev none [] c4netdev none).1 = true ∧
    Net.specNetworkDegraded c4prev none c4netdev none = false ∧
    (Net.collectNetwork c4prev none [] c4netdev none).1 ≠
      Net.specNetworkDegraded c4prev none c4netdev none := by
  refine ⟨?_, ?_, ?_⟩ <;> decide

/-- C4 amended: after each tick the flag equals "some interface's
CUMULATIVE drop counter, as stored in the updated previous map, is
nonzero — or a primed TCP retransmission reading increased this tick";
the drop side reflects cumulative history, not this tick's deltas. -/
theorem c4_amended_cumulative_flag (previous : List (String × Net.NetworkSnapshot))
    (prev_tcp : Option ℕ) (sysNets : List (String × ℕ × ℕ × ℕ))
    (netdev : Option (List (String × Net.NetDevVals))) (tcp : Option ℕ) :
    ((Net.collectNetwork previous prev_tcp sysNets netdev tcp).1 = true ↔
      (∃ p ∈ (Net.collectNetwork previous prev_tcp sysNets netdev tcp).2.1,
        0 < (p.2 : Net.NetworkSnapshot).rx_dropped ∨
          0 < (p.2 : Net.NetworkSnapshot).tx_dropped) ∨
      (∃ t pv, tcp = some t ∧ prev_tcp = some pv ∧ pv < t)) := by
  cases tcp with
  | none =>
    simp [Net.collectNetwork, List.any_eq_true]
  | some t =>
    cases prev_tcp with
    | none =>
      simp [Net.collectNetwork, List.any_eq_true]
    | some pv =>
      simp [Net.collectNetwork, List.any_eq_true]

/-- C4 witness: a tick whose only signal is a TCP retransmission
increase (5 → 9) raises the flag, via the amended characterization. -/
theorem c4_witness : (Net.collectNetwork [] (some 5) [] none (some 9)).1 = true :=
  (c4_amended_cumulative_flag [] (some 5) [] none (some 9)).mpr
    (Or.inr ⟨9, 5, rfl, rfl, by norm_num⟩)

/-! ## Claim C2 — block windows of the write path -/

namespace Tsdb

/-- A block directory with a well-formed window: 2 h wide, starting at
a non-negative multiple of the block duration, named after its
window. -/
def alignedBlock (b : BlockDirState) : Prop :=
  b.end_ms = b.start_ms + BLOCK_DURATION_MS ∧ 0 ≤ b.start_ms ∧
    BLOCK_DURATION_MS ∣ b.start_ms ∧ b.name = blockDirName b.start_ms b.end_ms

/-- Every sample of the block lies inside its window. -/
def samplesInWindow (b : BlockDirState) : Prop :=
  ∀ s ∈ b.samples, b.start_ms ≤ s.ts_ms ∧ s.ts_ms < b.end_ms

/-- Invariant of the TSDB state reachable through non-negative
timestamps: every block is aligned and holds only its own window's
samples, no two blocks share a window, and the open writer (when
present) is armed for an aligned window backed by a block on disk. -/
def WF (st : TsdbState) : Prop :=
  (∀ b ∈ st.disk, alignedBlock b ∧ samplesInWindow b) ∧
    List.Pairwise (fun b1 b2 => ¬(b1.start_ms = b2.start_ms ∧ b1.end_ms = b2.end_ms))
      st.disk ∧
    ∀ s e n, st.current = some (s, e, n) →
      e = s + BLOCK_DURATION_MS ∧ 0 ≤ s ∧ BLOCK_DURATION_MS ∣ s ∧
        ∃ b ∈ st.disk, b.start_ms = s ∧ b.end_ms = e

theorem block_duration_pos : (0 : ℤ) < BLOCK_DURATION_MS := by
  norm_num [BLOCK_DURATION_MS]

/-- For a non-negative timestamp, Rust's truncating division agrees
with the floor, and the computed window is the aligned window
containing the timestamp. -/
theorem window_facts (ts : ℤ) (h : 0 ≤ ts) :
    0 ≤ Int.tdiv ts BLOCK_DURATION_MS * BLOCK_DURATION_MS ∧
      BLOCK_DURATION_MS ∣ Int.tdiv ts BLOCK_DURATION_MS * BLOCK_DURATION_MS ∧
      Int.tdiv ts BLOCK_DURATION_MS * BLOCK_DURATION_MS ≤ ts ∧
      ts < Int.tdiv ts BLOCK_DURATION_MS * BLOCK_DURATION_MS + BLOCK_DURATION_MS := by
  have hW : (0 : ℤ) < BLOCK_DURATION_MS := block_duration_pos
  rw [Int.tdiv_eq_ediv h (le_of_lt hW)]
  have hmod1 : 0 ≤ ts % BLOCK_DURATION_MS := Int.emod_nonneg ts (ne_of_gt hW)
  have hmod2 : ts % BLOCK_DURATION_MS < BLOCK_DURATION_MS := Int.emod_lt_of_pos ts hW
  have heq : BLOCK_DURATION_MS * (ts / BLOCK_DURATION_MS) + ts % BLOCK_DURATION_MS = ts :=
    Int.ediv_add_emod ts BLOCK_DURATION_MS
  have hq : 0 ≤ ts / BLOCK_DURATION_MS := Int.ediv_nonneg h (le_of_lt hW)
  have hcomm : ts / BLOCK_DURATION_MS * BLOCK_DURATION_MS
      = BLOCK_DURATION_MS * (ts / BLOCK_DURATION_MS) := mul_comm _ _
  refine ⟨?_, ⟨ts / BLOCK_DURATION_MS, hcomm⟩, ?_, ?_⟩
  · exact mul_nonneg hq (le_of_lt hW)
  · rw [hcomm]; linarith
  · rw [hcomm]; linarith

/-- An aligned window containing `ts` starts at the floor window of
`ts`. -/
theorem start_eq_floor_window (s ts : ℤ) (hdvd : BLOCK_DURATION_MS ∣ s)
    (h1 : s ≤ ts) (h2 : ts < s + BLOCK_DURATION_MS) :
    s = BLOCK_DURATION_MS * (ts / BLOCK_DURATION_MS) := by
  have hW : (0 : ℤ) < BLOCK_DURATION_MS := block_duration_pos
  obtain ⟨k, rfl⟩ := hdvd
  have hts : ts = (ts - BLOCK_DURATION_MS * k) + BLOCK_DURATION_MS * k := by ring
  have hr1 : 0 ≤ ts - BLOCK_DURATION_MS * k := by linarith
  have hr2 : ts - BLOCK_DURATION_MS * k < BLOCK_DURATION_MS := by linarith
  have : ts / BLOCK_DURATION_MS = k := by
    rw [hts, Int.add_mul_ediv_left _ _ (ne_of_gt hW),
      Int.ediv_eq_zero_of_lt hr1 hr2, zero_add]
  rw [this]

/-- `BlockWriter::create` preserves the invariant and arms the writer
for the requested aligned window. -/
theorem createBlockWriter_WF (st : TsdbState) (ws : ℤ) (h0 : 0 ≤ ws)
    (hdvd : BLOCK_DURATION_MS ∣ ws) (hWF : WF st) :
    WF (createBlockWriter st ws (ws + BLOCK_DURATION_MS)) ∧
      (createBlockWriter st ws (ws + BLOCK_DURATION_MS)).current
        = some (ws, ws + BLOCK_DURATION_MS, blockDirName ws (ws + BLOCK_DURATION_MS)) := by
  obtain ⟨hblocks, hdist, _⟩ := hWF
  have hcurr : (createBlockWriter st ws (ws + BLOCK_DURATION_MS)).current
      = some (ws, ws + BLOCK_DURATION_MS, blockDirName ws (ws + BLOCK_DURATION_MS)) := rfl
  by_cases hex : (st.disk.any fun b =>
      decide (b.start_ms = ws ∧ b.end_ms = ws + BLOCK_DURATION_MS)) = true
  · have hdisk : (createBlockWriter st ws (ws + BLOCK_DURATION_MS)).disk = st.disk := by
      simp only [createBlockWriter]
      rw [if_pos hex]
    refine ⟨⟨?_, ?_, ?_⟩, hcurr⟩
    · rw [hdisk]; exact hblocks
    · rw [hdisk]; exact hdist
    · intro s e n hc
      rw [hcurr] at hc
      simp only [Option.some.injEq, Prod.mk.injEq] at hc
      obtain ⟨rfl, rfl, rfl⟩ := hc
      obtain ⟨b, hbmem, hbp⟩ := List.any_eq_true.mp hex
      exact ⟨rfl, h0, hdvd, b, by rw [hdisk]; exact hbmem, of_decide_eq_true hbp⟩
  · have hdisk : (createBlockWriter st ws (ws + BLOCK_DURATION_MS)).disk
        = st.disk ++ [⟨blockDirName ws (ws + BLOCK_DURATION_MS), ws,
            ws + BLOCK_DURATION_MS, []⟩] := by
      simp only [createBlockWriter]
      rw [if_neg hex]
    have hnotex : ∀ b ∈ st.disk,
        ¬(b.start_ms = ws ∧ b.end_ms = ws + BLOCK_DURATION_MS) := by
      intro b hb hcontra
      exact hex (List.any_eq_true.mpr ⟨b, hb, decide_eq_true hcontra⟩)
    refine ⟨⟨?_, ?_, ?_⟩, hcurr⟩
    · rw [hdisk]
      intro b hb
      rcases List.mem_append.mp hb with hmem | hmem
      · exact hblocks b hmem
      · rcases List.mem_singleton.mp hmem with rfl
        exact ⟨⟨rfl, h0, hdvd, rfl⟩, by intro s hs; cases hs⟩
    · rw [hdisk, List.pairwise_append]
      refine ⟨hdist, List.pairwise_singleton _ _, ?_⟩
      intro a ha b hb
      rcases List.mem_singleton.mp hb with rfl
      exact hnotex a ha
    · intro s e n hc
      rw [hcurr] at hc
      simp only [Option.some.injEq, Prod.mk.injEq] at hc
      obtain ⟨rfl, rfl, rfl⟩ := hc
      refine ⟨rfl, h0, hdvd, ⟨blockDirName ws (ws + BLOCK_DURATION_MS), ws,
        ws + BLOCK_DURATION_MS, []⟩, ?_, rfl, rfl⟩
      rw [hdisk]
      exact List.mem_append_right _ (List.mem_singleton.mpr rfl)

/-- `ensure_block_for_ts` preserves the invariant and leaves the writer
armed for a window containing the (non-negative) timestamp. -/
theorem ensure_block_for_ts_WF (st : TsdbState) (ts : ℤ) (h : 0 ≤ ts) (hWF : WF st) :
    WF (ensure_block_for_ts ts st) ∧
      ∃ s e n, (ensure_block_for_ts ts st).current = some (s, e, n) ∧
        s ≤ ts ∧ ts < e := by
  obtain ⟨hw0, hwdvd, hwle, hwlt⟩ := window_facts ts h
  cases hc : st.current with
  | none =>
    have hens : ensure_block_for_ts ts st
        = createBlockWriter st (Int.tdiv ts BLOCK_DURATION_MS * BLOCK_DURATION_MS)
            (Int.tdiv ts BLOCK_DURATION_MS * BLOCK_DURATION_MS + BLOCK_DURATION_MS) := by
      simp [ensure_block_for_ts, hc]
    obtain ⟨hwf', hcur'⟩ := createBlockWriter_WF st _ hw0 hwdvd hWF
    rw [hens]
    exact ⟨hwf', _, _, _, hcur', hwle, hwlt⟩
  | some tpl =>
    obtain ⟨s, e, n⟩ := tpl
    by_cases h1 : ts < s
    · have hens : ensure_block_for_ts ts st
          = createBlockWriter st (Int.tdiv ts BLOCK_DURATION_MS * BLOCK_DURATION_MS)
              (Int.tdiv ts BLOCK_DURATION_MS * BLOCK_DURATION_MS + BLOCK_DURATION_MS) := by
        simp [ensure_block_for_ts, hc, h1]
      obtain ⟨hwf', hcur'⟩ := createBlockWriter_WF st _ hw0 hwdvd hWF
      rw [hens]
      exact ⟨hwf', _, _, _, hcur', hwle, hwlt⟩
    · by_cases h2 : e ≤ ts
      · have hens : ensure_block_for_ts ts st
            = createBlockWriter st (Int.tdiv ts BLOCK_DURATION_MS * BLOCK_DURATION_MS)
                (Int.tdiv ts BLOCK_DURATION_MS * BLOCK_DURATION_MS + BLOCK_DURATION_MS) := by
          simp [ensure_block_for_ts, hc, h1, h2]
        obtain ⟨hwf', hcur'⟩ := createBlockWriter_WF st _ hw0 hwdvd hWF
        rw [hens]
        exact ⟨hwf', _, _, _, hcur', hwle, hwlt⟩
      · have hens : ensure_block_for_ts ts st = st := by
          simp [ensure_block_for_ts, hc, h1, h2]
        rw [hens]
        exact ⟨hWF, s, e, n, hc, not_lt.mp h1, not_le.mp h2⟩

/-- `write_sample` preserves the invariant when the armed window
contains the sample's timestamp. -/
theorem write_sample_WF (st : TsdbState) (sample : Sample) (hWF : WF st)
    (hcur : ∃ s e n, st.current = some (s, e, n) ∧ s ≤ sample.ts_ms ∧ sample.ts_ms < e) :
    WF (write_sample st sample) := by
  obtain ⟨s, e, n, hc, hle, hlt⟩ := hcur
  obtain ⟨hblocks, hdist, hcurinv⟩ := hWF
  set f := fun b : BlockDirState =>
    if b.start_ms = s ∧ b.end_ms = e then { b with samples := b.samples ++ [sample] }
    else b with hf
  have hdisk : (write_sample st sample).disk = st.disk.map f := by
    simp only [write_sample, hc, hf]
  have hcur2 : (write_sample st sample).current = st.current := by
    simp only [write_sample, hc]
  have hfstart : ∀ b, (f b).start_ms = b.start_ms := by
    intro b
    by_cases hb : b.start_ms = s ∧ b.end_ms = e <;> simp [hf, hb]
  have hfend : ∀ b, (f b).end_ms = b.end_ms := by
    intro b
    by_cases hb : b.start_ms = s ∧ b.end_ms = e <;> simp [hf, hb]
  have hfname : ∀ b, (f b).name = b.name := by
    intro b
    by_cases hb : b.start_ms = s ∧ b.end_ms = e <;> simp [hf, hb]
  refine ⟨?_, ?_, ?_⟩
  · rw [hdisk]
    intro fb hfb
    obtain ⟨b, hb, rfl⟩ := List.mem_map.mp hfb
    obtain ⟨⟨ha1, ha2, ha3, ha4⟩, hsw⟩ := hblocks b hb
    refine ⟨⟨?_, ?_, ?_, ?_⟩, ?_⟩
    · rw [hfend, hfstart]; exact ha1
    · rw [hfstart]; exact ha2
    · rw [hfstart]; exact ha3
    · rw [hfname, hfstart, hfend]; exact ha4
    · intro smp hmem
      rw [hfstart, hfend]
      by_cases hbm : b.start_ms = s ∧ b.end_ms = e
      · simp only [hf, if_pos hbm] at hmem
        rcases List.mem_append.mp hmem with hmem2 | hmem2
        · exact hsw smp hmem2
        · rcases List.mem_singleton.mp hmem2 with rfl
          exact ⟨hbm.1 ▸ hle, hbm.2 ▸ hlt⟩
      · simp only [hf, if_neg hbm] at hmem
        exact hsw smp hmem
  · rw [hdisk, List.pairwise_map]
    refine hdist.imp ?_
    intro a b hab
    rw [hfstart, hfstart, hfend, hfend]
    exact hab
  · intro s2 e2 n2 hc2
    rw [hcur2, hc] at hc2
    simp only [Option.some.injEq, Prod.mk.injEq] at hc2
    obtain ⟨rfl, rfl, rfl⟩ := hc2
    obtain ⟨he, h0, hdvd2, b, hb, hbs, hbe⟩ := hcurinv s e n hc
    refine ⟨he, h0, hdvd2, f b, ?_, ?_, ?_⟩
    · rw [hdisk]; exact List.mem_map.mpr ⟨b, hb, rfl⟩
    · rw [hfstart]; exact hbs
    · rw [hfend]; exact hbe

/-- The write loop of `write_samples` preserves the invariant for
non-negative timestamps. -/
theorem write_loop_WF : ∀ (samples : List Sample) (st : TsdbState),
    (∀ s ∈ samples, 0 ≤ s.ts_ms) → WF st →
    WF (samples.foldl
      (fun acc sample => write_sample (ensure_block_for_ts sample.ts_ms acc) sample) st) := by
  intro samples
  induction samples with
  | nil =>
    intro st _ h
    simpa using h
  | cons a rest ih =>
    intro st hts hWF
    rw [List.foldl_cons]
    refine ih _ (fun s hs => hts s (List.mem_cons_of_mem a hs)) ?_
    obtain ⟨hwf1, hex⟩ := ensure_block_for_ts_WF st a.ts_ms (hts a (List.mem_cons_self a rest)) hWF
    exact write_sample_WF _ a hwf1 hex

/-- `write_samples` preserves the invariant for non-negative
timestamps. -/
theorem write_samples_WF (st : TsdbState) (samples : List Sample)
    (hts : ∀ s ∈ samples, 0 ≤ s.ts_ms) (hWF : WF st) :
    WF (write_samples st samples) := by
  rw [write_samples]
  by_cases he : samples.isEmpty
  · rw [if_pos he]; exact hWF
  · rw [if_neg he]; exact write_loop_WF samples st hts hWF

/-- Any run from the empty buffer over batches of non-negative
timestamps satisfies the invariant. -/
theorem runBatches_WF (batches : List (List Sample))
    (h : ∀ batch ∈ batches, ∀ s ∈ batch, 0 ≤ s.ts_ms) :
    WF (runBatches batches) := by
  have hinit : WF initState := by
    refine ⟨?_, ?_, ?_⟩
    · intro b hb; cases hb
    · exact List.Pairwise.nil
    · intro s e n hc; cases hc
  rw [runBatches]
  have hgen : ∀ (bs : List (List Sample)) (st : TsdbState),
      (∀ batch ∈ bs, ∀ s ∈ batch, 0 ≤ s.ts_ms) → WF st →
      WF (bs.foldl write_samples st) := by
    intro bs
    induction bs with
    | nil => intro st _ h2; simpa using h2
    | cons b rest ih =>
      intro st hts hWF
      rw [List.foldl_cons]
      refine ih _ (fun batch hb => hts batch (List.mem_cons_of_mem b hb)) ?_
      exact write_samples_WF st b (hts b (List.mem_cons_self b rest)) hWF
  exact hgen batches initState h hinit

end Tsdb

/-- First E5 sample: `ts = 1,000,000`. -/
def c2sample1 : Tsdb.Sample :=
  { metric := "m", labels := [], ts_ms := 1000000, value := 1 }

/-- Second E5 sample: `ts = 7,201,000`. -/
def c2sample2 : Tsdb.Sample :=
  { metric := "m", labels := [], ts_ms := 7201000, value := 1 }

/-- A sample with a negative timestamp, refuting the claim as stated. -/
def c2negSample : Tsdb.Sample :=
  { metric := "m", labels := [], ts_ms := -1, value := 1 }

/-- C2 counterexample: Rust `i64` division truncates toward zero, so a
sample at `ts = -1` is appended to the block directory `0-7200000`
whose window is `[0, 7200000)` — the timestamp lies outside its block's
window, and the window start differs from `floor(t / 2h) · 2h =
-7200000`. -/
theorem c2_counterexample :
    ((Tsdb.runBatches [[c2negSample]]).disk.map fun b =>
        (b.name, b.start_ms, b.end_ms, b.samples.map Tsdb.Sample.ts_ms))
      = [("0-7200000", 0, 7200000, [-1])] ∧
    ¬((0 : ℤ) ≤ -1) ∧
    (0 : ℤ) ≠ Tsdb.BLOCK_DURATION_MS * ((-1) / Tsdb.BLOCK_DURATION_MS) := by
  refine ⟨by decide, by decide, by decide⟩

/-- C2 amended: restricted to samples with non-negative timestamps
(where truncating division equals the floor), every block directory
produced by any sequence of `write_samples` calls is the floor window
of each of its samples, 2 h wide, named `{start_ms}-{end_ms}`, contains
each sample within `[start_ms, end_ms)`; blocks have pairwise distinct
start times and non-overlapping windows.  The E5 run (writes at
`ts = 1,000,000` then `ts = 7,201,000`) produces exactly the two block
directories `0-7200000` and `7200000-14400000`, one sample each. -/
theorem c2_amended_block_windows (batches : List (List Tsdb.Sample))
    (h : ∀ batch ∈ batches, ∀ s ∈ batch, 0 ≤ s.ts_ms) :
    (∀ b ∈ (Tsdb.runBatches batches).disk,
      b.end_ms = b.start_ms + Tsdb.BLOCK_DURATION_MS ∧
      b.name = Tsdb.blockDirName b.start_ms b.end_ms ∧
      ∀ s ∈ b.samples,
        b.start_ms = Tsdb.BLOCK_DURATION_MS * (s.ts_ms / Tsdb.BLOCK_DURATION_MS) ∧
        b.start_ms ≤ s.ts_ms ∧ s.ts_ms < b.end_ms) ∧
    (∀ b1 ∈ (Tsdb.runBatches batches).disk, ∀ b2 ∈ (Tsdb.runBatches batches).disk,
      b1.start_ms ≠ b2.start_ms → ∀ t : ℤ,
      ¬(b1.start_ms ≤ t ∧ t < b1.end_ms ∧ b2.start_ms ≤ t ∧ t < b2.end_ms)) ∧
    List.Pairwise (fun b1 b2 : Tsdb.BlockDirState => b1.start_ms ≠ b2.start_ms)
      (Tsdb.runBatches batches).disk ∧
    ((Tsdb.runBatches [[c2sample1], [c2sample2]]).disk.map fun b =>
        (b.name, b.samples.map Tsdb.Sample.ts_ms))
      = [("0-7200000", [1000000]), ("7200000-14400000", [7201000])] := by
  obtain ⟨hblocks, hdist, _⟩ := Tsdb.runBatches_WF batches h
  refine ⟨?_, ?_, ?_, by decide⟩
  · intro b hb
    obtain ⟨⟨ha1, _, ha3, ha4⟩, hsw⟩ := hblocks b hb
    refine ⟨ha1, ha4, ?_⟩
    intro s hs
    obtain ⟨hle, hlt⟩ := hsw s hs
    refine ⟨?_, hle, hlt⟩
    exact Tsdb.start_eq_floor_window b.start_ms s.ts_ms ha3 hle (by rw [← ha1]; exact hlt)
  · intro b1 hb1 b2 hb2 hne t ⟨ht1, ht2, ht3, ht4⟩
    obtain ⟨⟨he1, _, hd1, _⟩, _⟩ := hblocks b1 hb1
    obtain ⟨⟨he2, _, hd2, _⟩, _⟩ := hblocks b2 hb2
    have hdvd : Tsdb.BLOCK_DURATION_MS ∣ b2.start_ms - b1.start_ms := dvd_sub hd2 hd1
    rcases lt_trichotomy b1.start_ms b2.start_ms with hlt | heq | hgt
    · have hge : Tsdb.BLOCK_DURATION_MS ≤ b2.start_ms - b1.start_ms :=
        Int.le_of_dvd (by linarith) hdvd
      rw [he1] at ht2
      linarith
    · exact hne heq
    · have hdvd2 : Tsdb.BLOCK_DURATION_MS ∣ b1.start_ms - b2.start_ms := dvd_sub hd1 hd2
      have hge : Tsdb.BLOCK_DURATION_MS ≤ b1.start_ms - b2.start_ms :=
        Int.le_of_dvd (by linarith) hdvd2
      rw [he2] at ht4
      linarith
  · refine hdist.imp_of_mem ?_
    intro b1 b2 hm1 hm2 hpair heq
    obtain ⟨⟨he1, _, _, _⟩, _⟩ := hblocks b1 hm1
    obtain ⟨⟨he2, _, _, _⟩, _⟩ := hblocks b2 hm2
    exact hpair ⟨heq, by rw [he1, he2, heq]⟩

/-- C2 witness: the E5 batches have non-negative timestamps, and the
amended theorem applies to them, yielding the two expected block
directories. -/
theorem c2_witness :
    (∀ batch ∈ [[c2sample1], [c2sample2]], ∀ s ∈ batch, 0 ≤ s.ts_ms) ∧
    ((Tsdb.runBatches [[c2sample1], [c2sample2]]).disk.map fun b =>
        (b.name, b.samples.map Tsdb.Sample.ts_ms))
      = [("0-7200000", [1000000]), ("7200000-14400000", [7201000])] :=
  ⟨by decide, (c2_amended_block_windows [[c2sample1], [c2sample2]] (by decide)).2.2.2⟩

/-! ## Claim C1 — pruning and the current block -/

namespace Tsdb

/-- Total on-disk size of a list of blocks, summed as `i64` like
`prune` does. -/
def sumSizes (l : List BlockInfo) : ℤ :=
  (l.map fun b => (b.size_bytes : ℤ)).sum

/-- A parsed block carries the directory name it was parsed from. -/
theorem parseBlockEntry_name (e : DirEntry) (b : BlockInfo)
    (h : parseBlockEntry e = some b) : b.dir = e.name := by
  unfold parseBlockEntry at h
  by_cases hd : e.is_dir = true
  · rw [if_pos hd] at h
    rcases hsp : splitDash e.name.data with _ | ⟨p0, tl⟩
    · rw [hsp] at h
      have h2 : (none : Option BlockInfo) = some b := h
      cases h2
    · rcases tl with _ | ⟨p1, tl2⟩
      · rw [hsp] at h
        have h2 : (none : Option BlockInfo) = some b := h
        cases h2
      · rcases tl2 with _ | ⟨p2, tl3⟩
        · rw [hsp] at h
          have h2 : (match parseNatChars p0, parseNatChars p1 with
              | some s, some en =>
                some (⟨e.name, (s : ℤ), (en : ℤ), e.size_bytes⟩ : BlockInfo)
              | _, _ => none) = some b := h
          rcases hn0 : parseNatChars p0 with _ | s
          · rw [hn0] at h2
            cases h2
          · rcases hn1 : parseNatChars p1 with _ | en
            · rw [hn0, hn1] at h2
              cases h2
            · rw [hn0, hn1] at h2
              cases Option.some.inj h2
              rfl
        · rw [hsp] at h
          have h2 : (none : Option BlockInfo) = some b := h
          cases h2
  · rw [if_neg hd] at h
    cases h

/-- Filtering directory entries by a predicate on their names commutes
with block parsing. -/
theorem list_blocks_filter_name (g : String → Bool) :
    ∀ l : List DirEntry,
      list_blocks (l.filter fun e => g e.name) = (list_blocks l).filter fun b => g b.dir := by
  intro l
  induction l with
  | nil => rfl
  | cons e t ih =>
    rcases hp : parseBlockEntry e with _ | b
    · by_cases hg : g e.name = true
      · simp [list_blocks, List.filter_cons, hg, List.filterMap_cons, hp] at ih ⊢
        exact ih
      · simp only [Bool.not_eq_true] at hg
        simp [list_blocks, List.filter_cons, hg, List.filterMap_cons, hp] at ih ⊢
        exact ih
    · have hname : b.dir = e.name := parseBlockEntry_name e b hp
      by_cases hg : g e.name = true
      · simp [list_blocks, List.filter_cons, hg, List.filterMap_cons, hp, hname] at ih ⊢
        exact ih
      · simp only [Bool.not_eq_true] at hg
        simp [list_blocks, List.filter_cons, hg, List.filterMap_cons, hp, hname] at ih ⊢
        exact ih

/-- The parsed blocks' directory names form a sublist of the entries'
names. -/
theorem list_blocks_dirs_sublist :
    ∀ l : List DirEntry, ((list_blocks l).map fun b => b.dir).Sublist (l.map fun e => e.name) := by
  intro l
  induction l with
  | nil => exact List.Sublist.refl _
  | cons e t ih =>
    rcases hp : parseBlockEntry e with _ | b
    · simp only [list_blocks, List.filterMap_cons, hp, List.map_cons]
      exact (show ((list_blocks t).map fun b => b.dir).Sublist _ from ih).cons e.name
    · have hname : b.dir = e.name := parseBlockEntry_name e b hp
      simp only [list_blocks, List.filterMap_cons, hp, List.map_cons, hname]
      exact (show ((list_blocks t).map fun b => b.dir).Sublist _ from ih).cons₂ e.name

/-- Stable insertion permutes to the cons. -/
theorem insertByStart_perm (b : BlockInfo) :
    ∀ l : List BlockInfo, (insertByStart b l).Perm (b :: l) := by
  intro l
  induction l with
  | nil => exact List.Perm.refl _
  | cons x xs ih =>
    by_cases hx : x.start_ms ≤ b.start_ms
    · rw [insertByStart, if_pos hx]
      exact (ih.cons x).trans (List.Perm.swap b x xs)
    · rw [insertByStart, if_neg hx]

/-- The stable sort permutes the input. -/
theorem sortByStart_perm (l : List BlockInfo) : (sortByStart l).Perm l := by
  have hgen : ∀ (l2 acc : List BlockInfo),
      (l2.foldl (fun acc b => insertByStart b acc) acc).Perm (acc ++ l2) := by
    intro l2
    induction l2 with
    | nil => intro acc; simp
    | cons b t ih =>
      intro acc
      rw [List.foldl_cons]
      refine (ih (insertByStart b acc)).trans ?_
      have h1 : (insertByStart b acc ++ t).Perm ((b :: acc) ++ t) :=
        (insertByStart_perm b acc).append_right t
      refine h1.trans ?_
      exact List.perm_middle.symm
  simpa using hgen l []

/-- The budget loop deletes a prefix of the sorted block list. -/
theorem budgetLoop_prefix (max_bytes : ℤ) :
    ∀ (l : List BlockInfo) (total : ℤ),
      ∃ suffix, l = budgetLoop max_bytes total l ++ suffix := by
  intro l
  induction l with
  | nil => intro total; exact ⟨[], rfl⟩
  | cons b t ih =>
    intro total
    by_cases hle : total ≤ max_bytes
    · rw [budgetLoop, if_pos hle]
      exact ⟨b :: t, rfl⟩
    · rw [budgetLoop, if_neg hle]
      obtain ⟨suffix, hs⟩ := ih (total - (b.size_bytes : ℤ))
      exact ⟨suffix, by rw [List.cons_append, ← hs]⟩

/-- Either the budget loop reaches the budget, or it deletes
everything. -/
theorem budgetLoop_bound (max_bytes : ℤ) :
    ∀ (l : List BlockInfo) (total : ℤ),
      total - sumSizes (budgetLoop max_bytes total l) ≤ max_bytes ∨
        budgetLoop max_bytes total l = l := by
  intro l
  induction l with
  | nil => intro total; exact .inr rfl
  | cons b t ih =>
    intro total
    by_cases hle : total ≤ max_bytes
    · rw [budgetLoop, if_pos hle]
      left
      simpa [sumSizes] using hle
    · rw [budgetLoop, if_neg hle]
      rcases ih (total - (b.size_bytes : ℤ)) with hbound | hall
      · left
        simp only [sumSizes, List.map_cons, List.sum_cons] at hbound ⊢
        linarith
      · right
        rw [hall]

end Tsdb

/-- C1 counterexample: a 2 MiB current (open) block — `now` lies inside
its window — is the only directory; with a 1 MiB budget, `prune`
deletes it.  `prune` enumerates directories with no exclusion of the
current block, so the current block IS deleted. -/
theorem c1_counterexample :
    ((Tsdb.list_blocks [⟨"0-7200000", true, 2097153⟩]).map fun b =>
        (b.dir, b.start_ms, b.end_ms)) = [("0-7200000", 0, 7200000)] ∧
    ((0 : ℤ) ≤ 7100000 ∧ (7100000 : ℤ) < 7200000) ∧
    Tsdb.prune 24 1 7100000 [⟨"0-7200000", true, 2097153⟩] = [] := by
  refine ⟨by decide, by decide, by decide⟩

/-- C1 amended: pruning enumerates block directories with NO exclusion
of the current block.  Under distinct directory names: the retention
phase keeps an entry iff it is not a parsed block with
`end_ms < now - retention_hours · 3,600,000`; and after the disk-budget
phase the surviving parsed blocks' total size is at most
`max_disk_mb · 1,048,576` bytes — the current block being deleted like
any other when it is old enough or among the oldest. -/
theorem c1_amended_prune (retention_hours max_disk_mb : ℕ) (now_ms : ℤ)
    (entries : List Tsdb.DirEntry) (hnodup : (entries.map fun e => e.name).Nodup) :
    (∀ e ∈ entries,
      (e ∈ Tsdb.pruneRetention retention_hours now_ms entries ↔
        ¬∃ b, Tsdb.parseBlockEntry e = some b ∧
          b.end_ms < now_ms - (retention_hours : ℤ) * 60 * 60 * 1000)) ∧
    Tsdb.sumSizes
        (Tsdb.list_blocks (Tsdb.prune retention_hours max_disk_mb now_ms entries))
      ≤ (max_disk_mb : ℤ) * 1024 * 1024 := by
  have hnodup1 : ((Tsdb.pruneRetention retention_hours now_ms entries).map
      fun e => e.name).Nodup :=
    (List.Sublist.map _ (List.filter_sublist entries)).nodup hnodup
  constructor
  · intro e he
    rw [Tsdb.pruneRetention, List.mem_filter]
    have hmem :
        ((((Tsdb.list_blocks entries).filter fun b =>
            decide (b.end_ms < now_ms - (retention_hours : ℤ) * 60 * 60 * 1000)).any
          fun b => decide (b.dir = e.name)) = true) ↔
        (∃ b, Tsdb.parseBlockEntry e = some b ∧
          b.end_ms < now_ms - (retention_hours : ℤ) * 60 * 60 * 1000) := by
      constructor
      · intro hany
        obtain ⟨b, hbmem, hbdir⟩ := List.any_eq_true.mp hany
        have hdir : b.dir = e.name := of_decide_eq_true hbdir
        obtain ⟨hbblocks, hbexp⟩ := List.mem_filter.mp hbmem
        obtain ⟨e2, he2, hp2⟩ := List.mem_filterMap.mp hbblocks
        have hname2 : b.dir = e2.name := Tsdb.parseBlockEntry_name e2 b hp2
        have : e2 = e := List.inj_on_of_nodup_map hnodup he2 he (hname2 ▸ hdir)
        subst this
        exact ⟨b, hp2, of_decide_eq_true hbexp⟩
      · intro ⟨b, hp, hexp⟩
        refine List.any_eq_true.mpr ⟨b, ?_, decide_eq_true (Tsdb.parseBlockEntry_name e b hp)⟩
        exact List.mem_filter.mpr ⟨List.mem_filterMap.mpr ⟨e, he, hp⟩, decide_eq_true hexp⟩
    constructor
    · rintro ⟨_, hkeep⟩ hex
      rw [Bool.not_eq_true'] at hkeep
      rw [← hmem] at hex
      rw [hkeep] at hex
      cases hex
    · intro hne
      refine ⟨he, ?_⟩
      rw [Bool.not_eq_true']
      rw [← hmem] at hne
      exact Bool.eq_false_iff.mpr hne
  · by_cases htot :
      (((Tsdb.list_blocks (Tsdb.pruneRetention retention_hours now_ms entries)).map
        fun b => (b.size_bytes : ℤ)).sum ≤ (max_disk_mb : ℤ) * 1024 * 1024)
    · have hpr : Tsdb.prune retention_hours max_disk_mb now_ms entries
          = Tsdb.pruneRetention retention_hours now_ms entries := by
        simp only [Tsdb.prune]
        rw [if_pos htot]
      rw [hpr]
      exact htot
    · have hpr : Tsdb.prune retention_hours max_disk_mb now_ms entries
          = (Tsdb.pruneRetention retention_hours now_ms entries).filter fun e =>
              !((Tsdb.budgetLoop ((max_disk_mb : ℤ) * 1024 * 1024)
                  (((Tsdb.list_blocks (Tsdb.pruneRetention retention_hours now_ms
                    entries)).map fun b => (b.size_bytes : ℤ)).sum)
                  (Tsdb.sortByStart (Tsdb.list_blocks (Tsdb.pruneRetention retention_hours
                    now_ms entries)))).any fun b => decide (b.dir = e.name)) := by
        simp only [Tsdb.prune]
        rw [if_neg htot]
      set blocks1 := Tsdb.list_blocks (Tsdb.pruneRetention retention_hours now_ms entries)
        with hblocks1
      set sorted := Tsdb.sortByStart blocks1 with hsorted
      set total := (blocks1.map fun b => (b.size_bytes : ℤ)).sum with htotal
      set maxB : ℤ := (max_disk_mb : ℤ) * 1024 * 1024 with hmaxB
      set deleted := Tsdb.budgetLoop maxB total sorted with hdeleted
      rw [hpr]
      have hfilter := Tsdb.list_blocks_filter_name
        (fun n => !(deleted.any fun b => decide (b.dir = n)))
        (Tsdb.pruneRetention retention_hours now_ms entries)
      rw [hfilter]
      have hperm : sorted.Perm blocks1 := Tsdb.sortByStart_perm blocks1
      have hdirs1 : (blocks1.map fun b => b.dir).Nodup :=
        (Tsdb.list_blocks_dirs_sublist _).nodup hnodup1
      have hdirsSorted : (sorted.map fun b => b.dir).Nodup :=
        ((hperm.map fun b => b.dir).nodup_iff).mpr hdirs1
      obtain ⟨suffix, hsfx⟩ := Tsdb.budgetLoop_prefix maxB sorted total
      have hdisj : ∀ d ∈ deleted, ∀ b ∈ suffix, d.dir ≠ b.dir := by
        intro d hd b hb
        rw [hsfx, List.map_append, List.nodup_append] at hdirsSorted
        intro heq
        exact hdirsSorted.2.2 (List.mem_map_of_mem _ hd) (heq ▸ List.mem_map_of_mem _ hb)
      have hkeepDel : ∀ d ∈ deleted,
          (!(deleted.any fun b => decide (b.dir = d.dir))) = false := by
        intro d hd
        simp only [Bool.not_eq_false']
        exact List.any_eq_true.mpr ⟨d, hd, decide_eq_true rfl⟩
      have hkeepSuf : ∀ b ∈ suffix,
          (!(deleted.any fun b2 => decide (b2.dir = b.dir))) = true := by
        intro b hb
        simp only [Bool.not_eq_true']
        rw [Bool.eq_false_iff]
        intro hany
        obtain ⟨d, hd, hdd⟩ := List.any_eq_true.mp hany
        exact hdisj d hd b hb (of_decide_eq_true hdd)
      have hsurv : (blocks1.filter fun b =>
          !(deleted.any fun b2 => decide (b2.dir = b.dir))).Perm suffix := by
        refine (List.Perm.filter _ hperm.symm).trans ?_
        rw [hsfx, List.filter_append]
        rw [List.filter_eq_nil_iff.mpr (by
          intro d hd
          rw [hkeepDel d hd]
          exact Bool.false_ne_true)]
        rw [List.nil_append, List.filter_eq_self.mpr hkeepSuf]
      have hsums : total = Tsdb.sumSizes deleted + Tsdb.sumSizes suffix := by
        rw [htotal, Tsdb.sumSizes, Tsdb.sumSizes, ← List.sum_append, ← List.map_append,
          ← hsfx]
        exact ((hperm.map fun b => (b.size_bytes : ℤ)).sum_eq).symm
      have hsurvsum : Tsdb.sumSizes (blocks1.filter fun b =>
          !(deleted.any fun b2 => decide (b2.dir = b.dir))) = Tsdb.sumSizes suffix := by
        rw [Tsdb.sumSizes, Tsdb.sumSizes]
        exact (hsurv.map fun b => ((b.size_bytes : ℤ))).sum_eq
      rw [show (fun b : Tsdb.BlockInfo =>
          !(deleted.any fun b2 => decide (b2.dir = b.dir))) = fun b =>
          (fun n => !(deleted.any fun b2 => decide (b2.dir = n))) b.dir from rfl] at hsurvsum
      rw [hsurvsum]
      rcases Tsdb.budgetLoop_bound maxB sorted total with hbound | hall
      · rw [hdeleted] at hsums
        linarith [hsums, hbound]
      · have hsufnil : suffix = [] := by
          rw [hall] at hsfx
          have h0 : sorted ++ ([] : List Tsdb.BlockInfo) = sorted ++ suffix := by
            rw [List.append_nil]
            exact hsfx
          exact (List.append_cancel_left h0).symm
        rw [hsufnil]
        simp only [Tsdb.sumSizes, List.map_nil, List.sum_nil]
        have hc : (0 : ℤ) ≤ (max_disk_mb : ℤ) * 1024 * 1024 := by omega
        linarith [hmaxB, hc]

/-- Directory listing used by the C1 witness: two block directories and
one non-block directory. -/
def c1entries : List Tsdb.DirEntry :=
  [⟨"0-7200000", true, 100⟩, ⟨"7200000-14400000", true, 200⟩, ⟨"junk", true, 999⟩]

/-- C1 witness: the amended characterization applied to a concrete
listing (retention 1 h, budget 1 MiB, now 12,000,000 ms). -/
theorem c1_witness :
    (∀ e ∈ c1entries,
      (e ∈ Tsdb.pruneRetention 1 12000000 c1entries ↔
        ¬∃ b, Tsdb.parseBlockEntry e = some b ∧
          b.end_ms < 12000000 - ((1 : ℕ) : ℤ) * 60 * 60 * 1000)) ∧
    Tsdb.sumSizes (Tsdb.list_blocks (Tsdb.prune 1 1 12000000 c1entries))
      ≤ ((1 : ℕ) : ℤ) * 1024 * 1024 :=
  c1_amended_prune 1 1 12000000 c1entries (by decide)

/-! ## Claim C8 — replay export rendering and filtering -/

namespace Export

/-- The running-append fold of `export_lines` is a `flatMap`. -/
theorem foldl_append_eq_flatMap (g : BlockFile → List String) :
    ∀ (l : List BlockFile) (init : List String),
      l.foldl (fun out b => out ++ g b) init = init ++ l.flatMap g := by
  intro l
  induction l with
  | nil => intro init; simp
  | cons b t ih =>
    intro init
    rw [List.foldl_cons, ih, List.flatMap_cons, List.append_assoc]

/-- A metric present in the block's index and matched by some filter
makes the index pre-check succeed. -/
theorem metrics_match_index_of_matches (filters names : List String) (metric : String)
    (hmem : metric ∈ names) (hmatch : matches_metric metric filters = true) :
    metrics_match_index filters names = true := by
  obtain ⟨f, hf, hbranch⟩ := List.any_eq_true.mp hmatch
  refine List.any_eq_true.mpr ⟨f, hf, ?_⟩
  by_cases hstar : endsWithStar f.data = true
  · rw [if_pos hstar] at hbranch ⊢
    exact List.any_eq_true.mpr ⟨metric, hmem, hbranch⟩
  · rw [if_neg hstar] at hbranch ⊢
    have heq : metric = f := of_decide_eq_true hbranch
    subst heq
    simpa using hmem

/-- C8: under well-formed blocks (samples inside their block's window;
index listing every stored metric), `export_lines` returns exactly the
stored samples whose timestamp satisfies `from ≤ ts ≤ to` and whose
metric matches a filter exactly or by trailing-wildcard, each rendered
as one `name{k1="v1",...} ts_ms value` line with labels sorted by
key, in block order then file order. -/
theorem c8_export_characterization (blocks : List BlockFile) (fromMs toMs : Option ℤ)
    (filters : List String)
    (hts : ∀ b ∈ blocks, ∀ s ∈ b.samples, b.start_ms ≤ s.ts_ms ∧ s.ts_ms < b.end_ms)
    (hidx : ∀ b ∈ blocks, ∀ names, b.indexNames = some names →
      ∀ s ∈ b.samples, s.metric ∈ names) :
    export_lines blocks fromMs toMs (some filters)
      = ((blocks.flatMap fun b => b.samples).filter
          (keepSample fromMs toMs (some filters))).map format_export_line := by
  rw [export_lines, foldl_append_eq_flatMap, List.nil_append]
  rw [show (List.filter (keepSample fromMs toMs (some filters))
        (blocks.flatMap fun b => b.samples))
      = blocks.flatMap fun b => b.samples.filter (keepSample fromMs toMs (some filters))
    from List.filter_flatMap blocks _ _]
  rw [List.map_flatMap]
  induction blocks with
  | nil => rfl
  | cons b t ih =>
    have htsb := hts b (List.mem_cons_self b t)
    have hidxb := hidx b (List.mem_cons_self b t)
    have htst : ∀ b2 ∈ t, ∀ s ∈ b2.samples, b2.start_ms ≤ s.ts_ms ∧ s.ts_ms < b2.end_ms :=
      fun b2 hb2 => hts b2 (List.mem_cons_of_mem b hb2)
    have hidxt : ∀ b2 ∈ t, ∀ names, b2.indexNames = some names →
        ∀ s ∈ b2.samples, s.metric ∈ names :=
      fun b2 hb2 => hidx b2 (List.mem_cons_of_mem b hb2)
    rw [List.flatMap_cons]
    simp only [List.filter_cons]
    by_cases hov : overlaps b.start_ms b.end_ms fromMs toMs = true
    · rw [if_pos hov, List.flatMap_cons, ih htst hidxt]
      congr 1
      rcases hidxn : b.indexNames with _ | names
      · simp [blockLines, hidxn]
      · cases hm : metrics_match_index filters names with
        | true =>
          simp [blockLines, hidxn, hm]
        | false =>
          have hempty : b.samples.filter (keepSample fromMs toMs (some filters)) = [] := by
            rw [List.filter_eq_nil_iff]
            intro s hs hkeep
            have hmemn : s.metric ∈ names := hidxb names hidxn s hs
            have hmatch : matches_metric s.metric filters = true :=
              ((Bool.and_eq_true _ _).mp hkeep).2
            rw [metrics_match_index_of_matches filters names s.metric hmemn hmatch] at hm
            cases hm
          simp [blockLines, hidxn, hm, hempty]
    · rw [if_neg hov, ih htst hidxt]
      have hovf : overlaps b.start_ms b.end_ms fromMs toMs = false :=
        Bool.eq_false_iff.mpr hov
      have hempty : b.samples.filter (keepSample fromMs toMs (some filters)) = [] := by
        rw [List.filter_eq_nil_iff]
        intro s hs hkeep
        obtain ⟨h1, h2⟩ := htsb s hs
        obtain ⟨htsr, _⟩ := (Bool.and_eq_true _ _).mp hkeep
        obtain ⟨hfr, hto⟩ := (Bool.and_eq_true _ _).mp htsr
        rcases Bool.and_eq_false_iff.mp hovf with hbad | hbad
        · rcases hf : fromMs with _ | f
          · rw [hf] at hbad; cases hbad
          · rw [hf] at hbad hfr
            have hend : ¬(f ≤ b.end_ms) := of_decide_eq_false hbad
            have hfts : f ≤ s.ts_ms := of_decide_eq_true hfr
            exact hend (le_of_lt (lt_of_le_of_lt hfts h2))
        · rcases ht2 : toMs with _ | tmax
          · rw [ht2] at hbad; cases hbad
          · rw [ht2] at hbad hto
            have hstart : ¬(b.start_ms ≤ tmax) := of_decide_eq_false hbad
            have htts : s.ts_ms ≤ tmax := of_decide_eq_true hto
            exact hstart (le_trans h1 htts)
      rw [hempty]
      rfl
end Export

/-- The E6 stored sample `gpu_power{uuid=U,index=0}=120` at t=100. -/
def e6sample1 : Tsdb.Sample :=
  { metric := "gpu_power", labels := [("uuid", "U"), ("index", "0")], ts_ms := 100,
    value := 120 }

/-- The E6 stored sample `cpu_load=2.0` at t=150. -/
def e6sample2 : Tsdb.Sample :=
  { metric := "cpu_load", labels := [], ts_ms := 150, value := 2 }

/-- The E6 block: both samples in one well-formed block with its
index. -/
def e6blocks : List Export.BlockFile :=
  [⟨0, 7200000, some ["gpu_power", "cpu_load"], [e6sample1, e6sample2]⟩]

/-- C8 witness: the E6 query `export(from=0, to=200, metrics=["gpu_*"])`
returns exactly one line, `gpu_power{index="0",uuid="U"} 100
120.000000`, with labels sorted by key. -/
theorem c8_witness :
    Export.export_lines e6blocks (some 0) (some 200) (some ["gpu_*"])
      = ["gpu_power\x7bindex=\"0\",uuid=\"U\"\x7d 100 120.000000"] :=
  (Export.c8_export_characterization e6blocks (some 0) (some 200) ["gpu_*"]
    (by decide)
    (by
      intro b hb names hn s hs
      simp only [e6blocks, List.mem_singleton] at hb
      subst hb
      cases Option.some.inj hn
      rcases List.mem_cons.mp hs with rfl | hs2
      · decide
      · rcases List.mem_singleton.mp hs2 with rfl
        decide)).trans (by decide)
